import Mathlib

/-!
Verification development for the MRI segmentation-registration core:
series geometry and validation (`lib/dicoms/dicom_dataset.py`), the
patient-to-image coordinate mapper and the landmark-based affine registrar
(`lib/registration/patient_reference_landmark_registration.py`), the dense
voxel-projection registrar
(`lib/registration/patient_reference_frame_registration.py`), and the study
data model (`lib/segmentations/structs.py`).

Numeric values are embedded as exact rationals; the floating-point code has
no rounding-sensitive branches in the properties treated here, which concern
orderings, branch structure, index arithmetic and exact linear solves.
Euclidean distances (which involve a square root) are compared through an
equivalent decidable rational predicate, bridged to `Real.sqrt` by a proved
lemma.
-/

/-- A 3-vector of rational coordinates (an embedded `numpy` float 3-vector). -/
structure Vec3 where
  x : ℚ
  y : ℚ
  z : ℚ
deriving DecidableEq

def add3 (a b : Vec3) : Vec3 := ⟨a.x + b.x, a.y + b.y, a.z + b.z⟩

def sub3 (a b : Vec3) : Vec3 := ⟨a.x - b.x, a.y - b.y, a.z - b.z⟩

def smul3 (c : ℚ) (a : Vec3) : Vec3 := ⟨c * a.x, c * a.y, c * a.z⟩

/-- Dot product (`np.dot`). -/
def dot3 (a b : Vec3) : ℚ := a.x * b.x + a.y * b.y + a.z * b.z

/-- Cross product (`np.cross`). -/
def cross3 (a b : Vec3) : Vec3 :=
  ⟨a.y * b.z - a.z * b.y, a.z * b.x - a.x * b.z, a.x * b.y - a.y * b.x⟩

/-- Squared Euclidean norm; `np.linalg.norm(v)` is its square root. -/
def normSq3 (a : Vec3) : ℚ := a.x * a.x + a.y * a.y + a.z * a.z

/-- Python `int()` applied to a float: truncation toward zero. -/
def pyInt (q : ℚ) : ℤ := if 0 ≤ q then ⌊q⌋ else ⌈q⌉

/-- `np.round` on a scalar: round half to even (banker's rounding). -/
def npRound (q : ℚ) : ℤ :=
  if q - ⌊q⌋ < 1/2 then ⌊q⌋
  else if q - ⌊q⌋ > 1/2 then ⌊q⌋ + 1
  else if Even ⌊q⌋ then ⌊q⌋ else ⌊q⌋ + 1

/-- Decidable rational form of `np.linalg.norm-squared s < θ` i.e.
`Real.sqrt s < θ`: equivalent by `sqrtLt_iff` below. -/
def sqrtLt (s θ : ℚ) : Bool := decide (0 < θ ∧ s < θ ^ 2)

/-- A 3D label volume (an embedded integer `numpy` array of shape
`(sy, sx, sz)`); reads outside the shape are irrelevant to the code. -/
structure Vol3 where
  sy : ℕ
  sx : ℕ
  sz : ℕ
  get : ℕ → ℕ → ℕ → ℕ

/-- Single-voxel assignment `v[y, x, z] = val`. -/
def Vol3.set (v : Vol3) (y x z : ℕ) (val : ℕ) : Vol3 :=
  { v with get := fun a b c => if a = y ∧ b = x ∧ c = z then val else v.get a b c }

/-- `np.zeros(shape, dtype=...)` for a label volume. -/
def Vol3.zeros (sy sx sz : ℕ) : Vol3 := ⟨sy, sx, sz, fun _ _ _ => 0⟩

/-- Python-level failures raised (or propagated) by the embedded code. -/
inductive PyErr where
  /-- `ValueError("Passed empty list for DicomDataset")` -/
  | emptyList
  /-- `ValueError(".. does not contain ImagePositionPatient")` -/
  | missingIPP
  /-- `TypeError("Found Segmentation in dicom dataset ..")` -/
  | segModality
  /-- `ValueError(".. do not match in SeriesInstanceUID")` -/
  | seriesUIDMismatch
  /-- `ValueError(".. do not match in StudyInstanceUID")` -/
  | studyUIDMismatch
  /-- `ValueError(".. do not match in pixel_array shape")` -/
  | shapeMismatch
  /-- `ValueError("Missing required DICOM tags ..")` / missing attribute -/
  | missingTag
  /-- `IndexError` from indexing into an empty dataset list -/
  | indexErr
  /-- generic `ValueError` (e.g. `np.stack` of an empty list) -/
  | valueErr
  /-- `np.linalg.LinAlgError` (singular matrix inversion / solve failure) -/
  | linAlgErr
  /-- `AttributeError` from `getattr` on an absent attribute -/
  | attrErr
  /-- series not cached; loading from disk is outside the embedded model -/
  | notCached
  /-- a count-based landmark error; the spec proposes it, see claim C4 -/
  | insufficientLandmarks
deriving DecidableEq

instance {ε α : Type} [DecidableEq ε] [DecidableEq α] : DecidableEq (Except ε α) :=
  fun a b =>
    match a, b with
    | .ok u, .ok v =>
        if h : u = v then isTrue (by rw [h])
        else isFalse (fun hc => by cases hc; exact h rfl)
    | .error u, .error v =>
        if h : u = v then isTrue (by rw [h])
        else isFalse (fun hc => by cases hc; exact h rfl)
    | .ok _, .error _ => isFalse (fun hc => by cases hc)
    | .error _, .ok _ => isFalse (fun hc => by cases hc)

/-- One DICOM slice (a `pydicom.Dataset` element), restricted to the tags the
embedded code reads.  `ImagePositionPatient` is optional because the code
explicitly tests for its presence; pixel data is represented by its shape,
which is all the embedded computations consume. -/
structure DicomSlice where
  ImagePositionPatient : Option Vec3
  /-- (row direction cosines, column direction cosines) -/
  ImageOrientationPatient : Vec3 × Vec3
  /-- (row spacing, column spacing), mm -/
  PixelSpacing : ℚ × ℚ
  SliceThickness : Option ℚ
  SeriesInstanceUID : String
  StudyInstanceUID : String
  Modality : String
  pixelRows : ℕ
  pixelCols : ℕ
deriving DecidableEq

/-- Reading `ds.ImagePositionPatient`: raises when the tag is absent. -/
def getIPP (d : DicomSlice) : Except PyErr Vec3 :=
  match d.ImagePositionPatient with
  | some p => .ok p
  | none => .error .missingTag

/-- Positions of slices along `n`, relative to `ref`: the loop
`np.dot(ds_ipp - ipp, slice_normal)` shared by `_sort_dicom_series`,
`_is_sorted` and `patient_to_image_coordinate`. -/
def posList (n ref : Vec3) : List DicomSlice → Except PyErr (List ℚ)
  | [] => .ok []
  | d :: rest => do
      let p ← getIPP d
      let ps ← posList n ref rest
      .ok (dot3 (sub3 p ref) n :: ps)

/-- `all((y - x) >= -tol for x, y in zip(positions, positions[1:]))`. -/
def isIncreasing (ps : List ℚ) (tol : ℚ) : Bool :=
  (ps.zip ps.tail).all fun q => decide (q.2 - q.1 ≥ -tol)

/-- `all((x - y) >= -tol for x, y in zip(positions, positions[1:]))`;
computed by `_is_sorted` but never used for its result. -/
def isDecreasing (ps : List ℚ) (tol : ℚ) : Bool :=
  (ps.zip ps.tail).all fun q => decide (q.1 - q.2 ≥ -tol)

/-- `_is_sorted(series, tol)` from `dicom_dataset.py`.  The orientation tag is
taken as present (its absence path is not exercised by any claim). -/
def is_sorted (series : List DicomSlice) (tol : ℚ) : Except PyErr Bool :=
  match series with
  | [] => .ok true
  | [_] => .ok true
  | d0 :: d1 :: rest => do
      let row := d0.ImageOrientationPatient.1
      let col := d0.ImageOrientationPatient.2
      let ref ← getIPP d0
      let n := cross3 row col
      let ps ← posList n ref (d0 :: d1 :: rest)
      let incr := isIncreasing ps tol
      let _decr := isDecreasing ps tol
      .ok incr

/-- Order on (position, slice) pairs used to sort a series by position. -/
def keyLE (p q : ℚ × DicomSlice) : Prop := p.1 ≤ q.1

instance : DecidableRel keyLE := fun p q => inferInstanceAs (Decidable (p.1 ≤ q.1))

instance : IsTotal (ℚ × DicomSlice) keyLE := ⟨fun p q => le_total p.1 q.1⟩

instance : IsTrans (ℚ × DicomSlice) keyLE := ⟨fun _ _ _ h h' => le_trans h h'⟩

/-- `_sort_dicom_series` from `dicom_dataset.py`: stable sort of the slices by
ascending position along the first slice's normal (Python's `sorted` is
stable; `List.insertionSort` computes the same permutation). -/
def sort_dicom_series : List DicomSlice → Except PyErr (List DicomSlice)
  | [] => .ok []
  | d0 :: rest => do
      let row := d0.ImageOrientationPatient.1
      let col := d0.ImageOrientationPatient.2
      let ref ← getIPP d0
      let n := cross3 row col
      let ps ← posList n ref (d0 :: rest)
      let pairs := ps.zip (d0 :: rest)
      .ok ((List.insertionSort keyLE pairs).map Prod.snd)

/-- `_check_types` from `dicom_dataset.py` (the Python `isinstance` checks are
vacuous in a typed embedding; the remaining checks appear in source order). -/
def check_types (l : List DicomSlice) : Except PyErr Unit :=
  match l with
  | [] => .error .emptyList
  | d0 :: _ =>
      if d0.ImagePositionPatient = none then .error .missingIPP
      else if l.any fun d => decide (d.Modality = "SEG") then .error .segModality
      else if ¬ (l.all fun d => decide (d.SeriesInstanceUID = d0.SeriesInstanceUID)) then
        .error .seriesUIDMismatch
      else if ¬ (l.all fun d => decide (d.StudyInstanceUID = d0.StudyInstanceUID)) then
        .error .studyUIDMismatch
      else if ¬ (l.all fun d =>
          decide ((d.pixelRows, d.pixelCols) = (d0.pixelRows, d0.pixelCols))) then
        .error .shapeMismatch
      else .ok ()

/-- Default tolerance of `_is_sorted` (`1e-5`). -/
def tolDefault : ℚ := 1 / 100000

/-- Wrapper for a validated series (`class DicomDataset`). -/
structure DicomDataset where
  dataset : List DicomSlice
deriving DecidableEq

/-- `DicomDataset.__init__(dcm_list, force)`: with `force` the list is taken
as-is, otherwise it is validated and then sorted unless already sorted. -/
def DicomDataset.make (l : List DicomSlice) (force : Bool) : Except PyErr DicomDataset :=
  if force then .ok ⟨l⟩
  else do
    check_types l
    let b ← is_sorted l tolDefault
    if b then .ok ⟨l⟩
    else do
      let s ← sort_dicom_series l
      .ok ⟨s⟩

/-- `np.stack`-derived shape `(num_slices, rows, cols)` of
`DicomDataset.get_pixel_array()`; empty series cannot be stacked. -/
def DicomDataset.pixelArrayShape (d : DicomDataset) : Except PyErr (ℕ × ℕ × ℕ) :=
  match d.dataset with
  | [] => .error .valueErr
  | d0 :: _ => .ok (d.dataset.length, d0.pixelRows, d0.pixelCols)

/-- The four supported modality kinds (`class ModalityType`). -/
inductive ModalityType where
  | cor_pdf
  | cor_t1
  | tra_pdf
  | sag_t2
deriving DecidableEq

/-- The six canonical landmark labels, as fields of `ReferencePoints`. -/
inductive LandmarkName where
  | lat_acr_border
  | lat_clav_border
  | apical_humerus
  | lat_glen_sup
  | lat_glen_inf
  | proc_cora_tip
deriving DecidableEq

/-- `landmark_names` list from `register_segmentation_with_filtered_landmarks`,
in source order. -/
def landmark_names : List LandmarkName :=
  [.lat_acr_border, .lat_clav_border, .apical_humerus,
   .lat_glen_sup, .lat_glen_inf, .proc_cora_tip]

/-- `ReferencePoints`: six named patient-space landmarks for one modality. -/
structure ReferencePoints where
  lat_acr_border : Vec3
  lat_clav_border : Vec3
  apical_humerus : Vec3
  lat_glen_sup : Vec3
  lat_glen_inf : Vec3
  proc_cora_tip : Vec3
deriving DecidableEq

/-- `getattr(reference_points, name)` for a landmark label. -/
def ReferencePoints.get (r : ReferencePoints) : LandmarkName → Vec3
  | .lat_acr_border => r.lat_acr_border
  | .lat_clav_border => r.lat_clav_border
  | .apical_humerus => r.apical_humerus
  | .lat_glen_sup => r.lat_glen_sup
  | .lat_glen_inf => r.lat_glen_inf
  | .proc_cora_tip => r.proc_cora_tip

/-- `Segmentation` from `structs.py`: immutable label volume and the 6-tuple
orientation derived from the NRRD header. -/
structure Segmentation where
  pixels : Vol3
  orientation : Vec3 × Vec3

/-- `Study` from `structs.py`.  Only the cached-series slots are embedded:
disk paths and file loading are not representable, so `read_image` models the
cache-hit path and signals `notCached` otherwise.  Note the source quirk that
the COR_T1 cache slot is the attribute `cor_t2_images`, and that there is no
`cor_pdf_reference_points` attribute. -/
structure Study where
  cor_t1_reference_points : ReferencePoints
  sag_t2_reference_points : ReferencePoints
  tra_pdf_reference_points : ReferencePoints
  cor_pdf_images : Option DicomDataset
  cor_t2_images : Option DicomDataset
  sag_t2_images : Option DicomDataset
  tra_pdf_images : Option DicomDataset
  segmentation : Segmentation

/-- `Study.read_image(mod)`: return the cached series for the modality. -/
def Study.read_image (s : Study) (mod : ModalityType) : Except PyErr DicomDataset :=
  match mod with
  | .cor_pdf => match s.cor_pdf_images with | some d => .ok d | none => .error .notCached
  | .cor_t1 => match s.cor_t2_images with | some d => .ok d | none => .error .notCached
  | .sag_t2 => match s.sag_t2_images with | some d => .ok d | none => .error .notCached
  | .tra_pdf => match s.tra_pdf_images with | some d => .ok d | none => .error .notCached

/-- `getattr(study, f"{modality.value}_reference_points")`: `Study` has no
such attribute for COR_PDF, so that lookup raises `AttributeError`. -/
def Study.get_reference_points (s : Study) : ModalityType → Except PyErr ReferencePoints
  | .cor_t1 => .ok s.cor_t1_reference_points
  | .sag_t2 => .ok s.sag_t2_reference_points
  | .tra_pdf => .ok s.tra_pdf_reference_points
  | .cor_pdf => .error .attrErr

/-- Geometry extracted from a series inside `register_segmentation`
(`patient_reference_frame_registration.py`, lines 37-56 for the source and
59-80 for the target, identical computations). -/
structure SeriesGeom where
  origin : Vec3
  row_dir : Vec3
  col_dir : Vec3
  slice_dir : Vec3
  row_spacing : ℚ
  col_spacing : ℚ
  slice_spacing : ℚ

/-- Through-plane spacing derivation (`register_segmentation` lines 46-52 and
68-76): for two or more slices the absolute projection of
`ipp[1] - origin` onto the slice direction; for a single slice the
`SliceThickness` tag, defaulting to `1.0` when absent. -/
def slice_spacing_of (l : List DicomSlice) (origin slice_dir : Vec3) : Except PyErr ℚ :=
  match l with
  | [] => .error .indexErr
  | [d0] => .ok (d0.SliceThickness.getD 1)
  | _ :: d1 :: _ => do
      let p1 ← getIPP d1
      .ok |dot3 (sub3 p1 origin) slice_dir|

/-- Orientation, spacings and origin of a series as read by
`register_segmentation` from its first slice. -/
def extract_geom (dcm : DicomDataset) : Except PyErr SeriesGeom :=
  match dcm.dataset with
  | [] => .error .indexErr
  | d0 :: _ => do
      let row := d0.ImageOrientationPatient.1
      let col := d0.ImageOrientationPatient.2
      let sdir := cross3 row col
      let origin ← getIPP d0
      let sspac ← slice_spacing_of dcm.dataset origin sdir
      .ok ⟨origin, row, col, sdir, d0.PixelSpacing.1, d0.PixelSpacing.2, sspac⟩

/-- Patient position of target voxel `(y, x, z)`
(`register_segmentation` lines 92-102):
`origin + slice_dir*(z*slice_spacing) + y*row_dir*row_spacing +
x*col_dir*col_spacing`. -/
def dense_patient_pos (g : SeriesGeom) (y x z : ℕ) : Vec3 :=
  add3 (add3 (add3 g.origin (smul3 ((z : ℚ) * g.slice_spacing) g.slice_dir))
        (smul3 ((y : ℚ) * g.row_spacing) g.row_dir))
    (smul3 ((x : ℚ) * g.col_spacing) g.col_dir)

/-- Rounded source voxel index of a patient position
(`register_segmentation` lines 104-115). -/
def dense_src_index (g : SeriesGeom) (p : Vec3) : ℤ × ℤ × ℤ :=
  let delta := sub3 p g.origin
  (npRound (dot3 delta g.row_dir / g.row_spacing),
   npRound (dot3 delta g.col_dir / g.col_spacing),
   npRound (dot3 delta g.slice_dir / g.slice_spacing))

/-- Bounds check and label fetch (`register_segmentation` lines 117-123):
`some label` when the rounded index is inside the source volume, else
`none` (and the target voxel is left untouched). -/
def src_label_at (seg : Vol3) (i : ℤ × ℤ × ℤ) : Option ℕ :=
  if 0 ≤ i.1 ∧ i.1 < (seg.sy : ℤ) ∧ 0 ≤ i.2.1 ∧ i.2.1 < (seg.sx : ℤ) ∧
      0 ≤ i.2.2 ∧ i.2.2 < (seg.sz : ℤ) then
    some (seg.get i.1.toNat i.2.1.toNat i.2.2.toNat)
  else none

/-- Conditional voxel write: the body of the innermost loop. -/
def writeCell (v : Vol3) (y x z : ℕ) (lbl : Option ℕ) : Vol3 :=
  match lbl with
  | some n => v.set y x z n
  | none => v

/-- Innermost loop `for x in range(nx)` at fixed `(y, z)`. -/
def loopX (f : ℕ → ℕ → ℕ → Option ℕ) (y z nx : ℕ) (v : Vol3) : Vol3 :=
  (List.range nx).foldl (fun acc x => writeCell acc y x z (f y x z)) v

/-- Middle loop `for y in range(ny)` at fixed `z`. -/
def loopY (f : ℕ → ℕ → ℕ → Option ℕ) (z ny nx : ℕ) (v : Vol3) : Vol3 :=
  (List.range ny).foldl (fun acc y => loopX f y z nx acc) v

/-- Outer loop `for z in range(nz)`. -/
def loopZ (f : ℕ → ℕ → ℕ → Option ℕ) (nz ny nx : ℕ) (v : Vol3) : Vol3 :=
  (List.range nz).foldl (fun acc z => loopY f z ny nx acc) v

/-- The dense resampling loop of `register_segmentation` (lines 82-123):
initialize `registered = np.zeros(target_shape)` and, for every target voxel,
write the source label when the mapped rounded index is in bounds. -/
def dense_resample (seg : Vol3) (gsrc gtgt : SeriesGeom) (shape : ℕ × ℕ × ℕ) : Vol3 :=
  loopZ (fun y x z => src_label_at seg (dense_src_index gsrc (dense_patient_pos gtgt y x z)))
    shape.2.2 shape.1 shape.2.1 (Vol3.zeros shape.1 shape.2.1 shape.2.2)

/-- Target shape `(Y, X, Z)` from the target's `(Z, Y, X)` pixel array
(`register_segmentation` lines 27-34). -/
def target_shape_of (dcm : DicomDataset) : Except PyErr (ℕ × ℕ × ℕ) := do
  let s ← dcm.pixelArrayShape
  .ok (s.2.1, s.2.2, s.1)

/-- `register_segmentation(study, modality)` from
`patient_reference_frame_registration.py`: identity short-circuit for the
segmentation's native modality COR_T1, otherwise dense per-voxel forward
projection from source (COR_T1) geometry to target geometry. -/
def register_segmentation (study : Study) (modality : ModalityType) : Except PyErr Vol3 :=
  if modality = ModalityType.cor_t1 then .ok study.segmentation.pixels
  else do
    let src_dcm ← study.read_image ModalityType.cor_t1
    let target_dcm ← study.read_image modality
    let shape ← target_shape_of target_dcm
    let gs ← extract_geom src_dcm
    let gt ← extract_geom target_dcm
    .ok (dense_resample study.segmentation.pixels gs gt shape)

/-- First index of the minimum of a list (`np.argmin`), together with the
minimum value; `none` on the empty list. -/
def argminPair : List ℚ → Option (ℕ × ℚ)
  | [] => none
  | a :: rest =>
      match argminPair rest with
      | none => some (0, a)
      | some (i, v) => if a ≤ v then some (0, a) else some (i + 1, v)

/-- `np.argmin` (first index attaining the minimum; `0` on empty input). -/
def npArgmin (l : List ℚ) : ℕ := ((argminPair l).map Prod.fst).getD 0

/-- Exact least-squares solution of the 3-equation/2-unknown system
`[u | v] * (i, j) ~ delta` via the normal equations, as computed by
`np.linalg.lstsq` for a full-rank matrix.  The rank-deficient minimum-norm
branch of `lstsq` is not exercised by any claim and falls back to `(0, 0)`. -/
def lstsq2 (u v delta : Vec3) : ℚ × ℚ :=
  let a := dot3 u u
  let b := dot3 u v
  let c := dot3 v v
  let det := a * c - b * b
  if det = 0 then (0, 0)
  else
    let p := dot3 u delta
    let q := dot3 v delta
    ((c * p - b * q) / det, (a * q - b * p) / det)

/-- The locally re-sorted (position, slice) pairs of
`patient_to_image_coordinate` (lines 51-54): `np.argsort` of the positions
applied to positions and datasets alike. -/
def local_sorted_pairs (d0 : DicomSlice) (rest : List DicomSlice) (ps : List ℚ) :
    List (ℚ × DicomSlice) :=
  List.insertionSort keyLE (ps.zip (d0 :: rest))

/-- The locally re-sorted slice positions of `patient_to_image_coordinate`. -/
def sorted_positions (d0 : DicomSlice) (rest : List DicomSlice) (ps : List ℚ) : List ℚ :=
  (local_sorted_pairs d0 rest ps).map Prod.fst

/-- Nearest-slice selection inside `patient_to_image_coordinate`
(`patient_reference_landmark_registration.py` lines 43-65): positions along
the first slice's normal, local re-sort, and `argmin` of the absolute
difference to the query projection.  Returns `(k, datasets[k])` in the sorted
order. -/
def slice_selection (p : Vec3) (d0 : DicomSlice) (rest : List DicomSlice) :
    Except PyErr (ℕ × DicomSlice) := do
  let row := d0.ImageOrientationPatient.1
  let col := d0.ImageOrientationPatient.2
  let image_position ← getIPP d0
  let n := cross3 row col
  let ps ← posList n image_position (d0 :: rest)
  let sortedPairs := local_sorted_pairs d0 rest ps
  let d := dot3 (sub3 p image_position) n
  let k := npArgmin (sortedPairs.map fun q => |q.1 - d|)
  .ok (k, (sortedPairs.map Prod.snd).getD k d0)

/-- The float in-plane least-squares solution `(i, j)` of
`patient_to_image_coordinate` (lines 67-81), before the `int()` truncations
of the return statement: `i` multiplies `row_cosines * PixelSpacing[1]` and
`j` multiplies `col_cosines * PixelSpacing[0]`. -/
def in_plane_solution (p : Vec3) (series : DicomDataset) : Except PyErr (ℚ × ℚ) :=
  match series.dataset with
  | [] => .error .indexErr
  | d0 :: rest => do
      let sel ← slice_selection p d0 rest
      let ipp_k ← getIPP sel.2
      let delta := sub3 p ipp_k
      let row := d0.ImageOrientationPatient.1
      let col := d0.ImageOrientationPatient.2
      .ok (lstsq2 (smul3 d0.PixelSpacing.2 row) (smul3 d0.PixelSpacing.1 col) delta)

/-- `patient_to_image_coordinate(patient_coordinate, series)` from
`patient_reference_landmark_registration.py`: nearest-slice selection along
the normal, in-plane least squares, and the return statement
`(int(j), int(i), int(k))`. -/
def patient_to_image_coordinate (p : Vec3) (series : DicomDataset) :
    Except PyErr (ℤ × ℤ × ℕ) :=
  match series.dataset with
  | [] => .error .indexErr
  | d0 :: rest => do
      let sel ← slice_selection p d0 rest
      let ipp_k ← getIPP sel.2
      let delta := sub3 p ipp_k
      let row := d0.ImageOrientationPatient.1
      let col := d0.ImageOrientationPatient.2
      let ij := lstsq2 (smul3 d0.PixelSpacing.2 row) (smul3 d0.PixelSpacing.1 col) delta
      .ok (pyInt ij.2, pyInt ij.1, sel.1)

/-- Landmark filtering loop of `register_segmentation_with_filtered_landmarks`
(lines 150-167): walk the six canonical names in order and keep the pair when
the patient-space Euclidean distance is strictly below the threshold.
Returns (kept source points, kept target points, kept names). -/
def filterAux (src tgt : ReferencePoints) (θ : ℚ) :
    List LandmarkName → List Vec3 × List Vec3 × List LandmarkName
  | [] => ([], [], [])
  | n :: rest =>
      let r := filterAux src tgt θ rest
      if sqrtLt (normSq3 (sub3 (src.get n) (tgt.get n))) θ then
        (src.get n :: r.1, tgt.get n :: r.2.1, n :: r.2.2)
      else r

/-- Filtering over the full canonical name list. -/
def filter_landmarks (src tgt : ReferencePoints) (θ : ℚ) :
    List Vec3 × List Vec3 × List LandmarkName :=
  filterAux src tgt θ landmark_names

/-- The kept landmark names (`used_landmarks` in the source). -/
def used_landmarks (src tgt : ReferencePoints) (θ : ℚ) : List LandmarkName :=
  (filter_landmarks src tgt θ).2.2

/-- Homogeneous coordinates of a point: `np.hstack([pt, 1])`. -/
def hom4 (p : Vec3) : Fin 4 → ℚ
  | 0 => p.x
  | 1 => p.y
  | 2 => p.z
  | 3 => 1

/-- Components of a point as a 3-vector indexed by `Fin 3`. -/
def comp3 (p : Vec3) : Fin 3 → ℚ
  | 0 => p.x
  | 1 => p.y
  | 2 => p.z

/-- Gram matrix `A^T A` of the homogeneous source coordinates. -/
def gram4 (pts : List Vec3) : Matrix (Fin 4) (Fin 4) ℚ :=
  Matrix.of fun i j => (pts.map fun p => hom4 p i * hom4 p j).sum

/-- `A^T B` for the homogeneous least-squares system `A X ~ B`. -/
def atb4 (src tgt : List Vec3) : Matrix (Fin 4) (Fin 3) ℚ :=
  Matrix.of fun i j => ((src.zip tgt).map fun st => hom4 st.1 i * comp3 st.2 j).sum

/-- Inverse of a square rational matrix via the adjugate (defined to be
meaningful when the determinant is nonzero). -/
def matInv4 (A : Matrix (Fin 4) (Fin 4) ℚ) : Matrix (Fin 4) (Fin 4) ℚ :=
  (A.det)⁻¹ • A.adjugate

/-- Inverse of a 3x3 rational matrix via the adjugate (`np.linalg.inv`;
the singular case is guarded by the caller). -/
def matInv3 (A : Matrix (Fin 3) (Fin 3) ℚ) : Matrix (Fin 3) (Fin 3) ℚ :=
  (A.det)⁻¹ • A.adjugate

/-- `np.linalg.lstsq(src_homogeneous, tgt_points)` (line 200): the exact
normal-equation solution of the overdetermined system for a full-rank Gram
matrix.  The rank-deficient minimum-norm branch is not exercised by any claim
and falls back to the zero matrix. -/
def lstsq_affine (src tgt : List Vec3) : Matrix (Fin 4) (Fin 3) ℚ :=
  let A := gram4 src
  if A.det = 0 then 0
  else matInv4 A * atb4 src tgt

/-- `M = X[:3, :].T` (line 202). -/
def linearPart (X : Matrix (Fin 4) (Fin 3) ℚ) : Matrix (Fin 3) (Fin 3) ℚ :=
  Matrix.of fun i j => X j.castSucc i

/-- `offset = X[3, :]` (line 203). -/
def offsetPart (X : Matrix (Fin 4) (Fin 3) ℚ) : Fin 3 → ℚ := fun i => X 3 i

/-- `offset_inv = -offset @ M_inv.T` (line 222). -/
def offsetInvOf (off : Fin 3 → ℚ) (Minv : Matrix (Fin 3) (Fin 3) ℚ) : Fin 3 → ℚ :=
  fun j => -(∑ i, off i * Minv j i)

/-- `scipy.ndimage.affine_transform(seg, matrix=M_inv, offset=offset_inv,
output_shape, order=0, mode="constant", cval=0)` (lines 225-233): each output
voxel `o` samples the input at the nearest integer index to
`M_inv @ o + offset_inv`, with background 0 outside the input domain. -/
def affine_resample (seg : Vol3) (Minv : Matrix (Fin 3) (Fin 3) ℚ)
    (off : Fin 3 → ℚ) (shape : ℕ × ℕ × ℕ) : Vol3 :=
  { sy := shape.1, sx := shape.2.1, sz := shape.2.2,
    get := fun y x z =>
      if y < shape.1 ∧ x < shape.2.1 ∧ z < shape.2.2 then
        let o : Fin 3 → ℚ := comp3 ⟨(y : ℚ), (x : ℚ), (z : ℚ)⟩
        let c : Fin 3 → ℚ := fun i => (∑ j, Minv i j * o j) + off i
        let iy := ⌊c 0 + 1/2⌋
        let ix := ⌊c 1 + 1/2⌋
        let iz := ⌊c 2 + 1/2⌋
        if 0 ≤ iy ∧ iy < (seg.sy : ℤ) ∧ 0 ≤ ix ∧ ix < (seg.sx : ℤ) ∧
            0 ≤ iz ∧ iz < (seg.sz : ℤ) then
          seg.get iy.toNat ix.toNat iz.toNat
        else 0
      else 0 }

/-- Image-coordinate triple as a rational point (`np.array` of the int
tuple returned by `patient_to_image_coordinate`). -/
def castPt (t : ℤ × ℤ × ℕ) : Vec3 := ⟨(t.1 : ℚ), (t.2.1 : ℚ), (t.2.2 : ℚ)⟩

/-- Everything `register_segmentation_with_filtered_landmarks` does after its
native-modality short-circuit (lines 119-245): load both series, filter the
landmark pairs by patient-space distance, convert the retained pairs to image
coordinates, estimate the affine map by least squares — with no check on the
number of retained pairs — invert it, and resample.  The only failure points
are series access, the missing COR_PDF reference-point attribute, empty
datasets, and a singular `M`. -/
def landmark_pipeline (study : Study) (modality : ModalityType) (θ : ℚ) :
    Except PyErr Vol3 := do
  let src_dcm ← study.read_image ModalityType.cor_t1
  let target_dcm ← study.read_image modality
  let seg := study.segmentation.pixels
  let shape ← target_shape_of target_dcm
  let target_ref ← study.get_reference_points modality
  let fl := filter_landmarks study.cor_t1_reference_points target_ref θ
  let src_pts ← fl.1.mapM fun p => patient_to_image_coordinate p src_dcm
  let tgt_pts ← fl.2.1.mapM fun p => patient_to_image_coordinate p target_dcm
  let X := lstsq_affine (src_pts.map castPt) (tgt_pts.map castPt)
  let M := linearPart X
  if M.det = 0 then .error .linAlgErr
  else
    let Minv := matInv3 M
    .ok (affine_resample seg Minv (offsetInvOf (offsetPart X) Minv) shape)

/-- `register_segmentation_with_filtered_landmarks(study, modality,
max_distance_mm)` from `patient_reference_landmark_registration.py`:
identity short-circuit for COR_T1, otherwise the filtered-landmark affine
pipeline. -/
def register_segmentation_with_filtered_landmarks (study : Study)
    (modality : ModalityType) (θ : ℚ) : Except PyErr Vol3 :=
  if modality = ModalityType.cor_t1 then .ok study.segmentation.pixels
  else landmark_pipeline study modality θ

/-- Key function: position of a slice along `n` relative to `ref` (the value
`posList` computes when the position tag is present). -/
def posKey (n ref : Vec3) (d : DicomSlice) : ℚ :=
  dot3 (sub3 (d.ImagePositionPatient.getD ⟨0, 0, 0⟩) ref) n

/-- Concrete axial slice at height `q`, used by witnesses. -/
def sliceAt (q : ℚ) : DicomSlice :=
  { ImagePositionPatient := some ⟨0, 0, q⟩
    ImageOrientationPatient := (⟨1, 0, 0⟩, ⟨0, 1, 0⟩)
    PixelSpacing := (1, 1)
    SliceThickness := none
    SeriesInstanceUID := "series-uid"
    StudyInstanceUID := "study-uid"
    Modality := "MR"
    pixelRows := 4
    pixelCols := 4 }

/-- Concrete one-slice series. -/
def seriesOne : DicomDataset := ⟨[sliceAt 0]⟩

/-- Concrete two-slice series in ascending order. -/
def seriesAsc : DicomDataset := ⟨[sliceAt 0, sliceAt 1]⟩

/-- Concrete two-slice slice list in strictly descending order. -/
def slicesDesc : List DicomSlice := [sliceAt 0, sliceAt (-1)]

/-- Concrete query point with fractional in-plane solution. -/
def ptHalf : Vec3 := ⟨1/2, 1/2, 0⟩

/-- Concrete 1x1x1 source label volume with label 7. -/
def segOne : Vol3 := ⟨1, 1, 1, fun _ _ _ => 7⟩

/-- Identity-like series geometry. -/
def geomId : SeriesGeom := ⟨⟨0, 0, 0⟩, ⟨1, 0, 0⟩, ⟨0, 1, 0⟩, ⟨0, 0, 1⟩, 1, 1, 1⟩

/-- Reference points all at the origin. -/
def rpZero : ReferencePoints := ⟨⟨0, 0, 0⟩, ⟨0, 0, 0⟩, ⟨0, 0, 0⟩, ⟨0, 0, 0⟩, ⟨0, 0, 0⟩, ⟨0, 0, 0⟩⟩

/-- Reference points with one landmark displaced at distance exactly 5. -/
def rpFive : ReferencePoints := ⟨⟨3, 4, 0⟩, ⟨0, 0, 0⟩, ⟨0, 0, 0⟩, ⟨0, 0, 0⟩, ⟨0, 0, 0⟩, ⟨0, 0, 0⟩⟩

/-- Concrete segmentation-typed slice (Modality "SEG"). -/
def sliceSeg : DicomSlice := { sliceAt 0 with Modality := "SEG" }

/-- Concrete study fixture: COR_T1 and SAG_T2 series cached, 1x1x1
segmentation. -/
def studyFix : Study :=
  { cor_t1_reference_points := rpZero
    sag_t2_reference_points := rpZero
    tra_pdf_reference_points := rpZero
    cor_pdf_images := none
    cor_t2_images := some seriesAsc
    sag_t2_images := some seriesAsc
    tra_pdf_images := none
    segmentation := ⟨segOne, (⟨1, 0, 0⟩, ⟨0, 1, 0⟩)⟩ }

/-! ## Helper lemmas -/

theorem bind_ok_eq {α β : Type} (a : α) (f : α → Except PyErr β) :
    (Except.ok a >>= f) = f a := rfl

theorem bind_error_eq {α β : Type} (e : PyErr) (f : α → Except PyErr β) :
    ((Except.error e : Except PyErr α) >>= f) = .error e := rfl

theorem getIPP_some (d : DicomSlice) (p : Vec3) (h : d.ImagePositionPatient = some p) :
    getIPP d = .ok p := by
  unfold getIPP
  rw [h]

theorem getIPP_none (d : DicomSlice) (h : d.ImagePositionPatient = none) :
    getIPP d = .error .missingTag := by
  unfold getIPP
  rw [h]

theorem normSq3_nonneg (a : Vec3) : 0 ≤ normSq3 a :=
  add_nonneg (add_nonneg (mul_self_nonneg _) (mul_self_nonneg _)) (mul_self_nonneg _)

/-- Bridge between the decidable rational comparison used in the embedding and
the real comparison `np.linalg.norm(..) < threshold` of the source. -/
theorem sqrtLt_iff (s θ : ℚ) :
    sqrtLt s θ = true ↔ Real.sqrt (s : ℝ) < (θ : ℝ) := by
  unfold sqrtLt
  rw [decide_eq_true_iff]
  constructor
  · rintro ⟨hθ, hlt⟩
    refine (Real.sqrt_lt' (by exact_mod_cast hθ)).2 ?_
    exact_mod_cast hlt
  · intro h
    by_cases hθ : 0 < θ
    · refine ⟨hθ, ?_⟩
      have := (Real.sqrt_lt' (by exact_mod_cast hθ)).1 h
      exact_mod_cast this
    · exfalso
      have h1 : (θ : ℝ) ≤ 0 := by exact_mod_cast not_lt.1 hθ
      exact absurd (lt_of_le_of_lt (Real.sqrt_nonneg _) h) (not_lt.2 h1)

theorem dot3_add3_left (a b n : Vec3) : dot3 (add3 a b) n = dot3 a n + dot3 b n := by
  simp only [dot3, add3]
  ring

theorem dot3_smul3_left (c : ℚ) (a n : Vec3) : dot3 (smul3 c a) n = c * dot3 a n := by
  simp only [dot3, smul3]
  ring

theorem dot3_sub3_shift (a r r' n : Vec3) :
    dot3 (sub3 a r') n = dot3 (sub3 a r) n - dot3 (sub3 r' r) n := by
  simp only [dot3, sub3]
  ring

theorem dot3_cross3_left (a b : Vec3) : dot3 a (cross3 a b) = 0 := by
  simp only [dot3, cross3]
  ring

theorem dot3_cross3_right (a b : Vec3) : dot3 b (cross3 a b) = 0 := by
  simp only [dot3, cross3]
  ring

theorem sub3_add3_cancel (a w : Vec3) : sub3 (add3 a w) a = w := by
  cases w with
  | mk wx wy wz =>
      simp only [sub3, add3, Vec3.mk.injEq]
      refine ⟨by ring, by ring, by ring⟩

theorem pyInt_nonneg_eq_floor (q : ℚ) (h : 0 ≤ q) : pyInt q = ⌊q⌋ := by
  simp [pyInt, h]

theorem pyInt_neg_eq_ceil (q : ℚ) (h : q < 0) : pyInt q = ⌈q⌉ := by
  simp [pyInt, not_le.2 h]

theorem pyInt_intCast (a : ℤ) : pyInt (a : ℚ) = a := by
  unfold pyInt
  split <;> simp

/-- `posList` succeeds exactly on the slices carrying a position tag, and then
computes the `posKey` values. -/
theorem posList_ok_eq (n ref : Vec3) :
    ∀ (l : List DicomSlice) (ps : List ℚ), posList n ref l = .ok ps →
      ps = l.map (posKey n ref) ∧ ∀ d ∈ l, d.ImagePositionPatient.isSome := by
  intro l
  induction l with
  | nil =>
      intro ps h
      simp only [posList] at h
      cases h
      simp
  | cons d rest ih =>
      intro ps h
      simp only [posList] at h
      cases hd : d.ImagePositionPatient with
      | none => rw [getIPP, hd] at h; cases h
      | some p =>
          rw [getIPP, hd] at h
          rw [bind_ok_eq] at h
          cases hr : posList n ref rest with
          | error e => rw [hr, bind_error_eq] at h; cases h
          | ok ps' =>
              rw [hr, bind_ok_eq] at h
              cases h
              obtain ⟨h1, h2⟩ := ih ps' hr
              constructor
              · simp [h1, posKey, hd]
              · intro d' hd'
                rcases List.mem_cons.1 hd' with h | h
                · subst h; simp [hd]
                · exact h2 d' h

theorem posList_of_all_some (n ref : Vec3) (l : List DicomSlice)
    (h : ∀ d ∈ l, d.ImagePositionPatient.isSome) :
    posList n ref l = .ok (l.map (posKey n ref)) := by
  induction l with
  | nil => simp [posList]
  | cons d rest ih =>
      have hd := h d (by simp)
      cases hd' : d.ImagePositionPatient with
      | none => rw [hd'] at hd; simp at hd
      | some p =>
          have hr := ih fun d' h' => h d' (by simp [h'])
          simp only [posList, getIPP, hd', hr, bind_ok_eq]
          simp [posKey, hd']

theorem posList_length (n ref : Vec3) (l : List DicomSlice) (ps : List ℚ)
    (h : posList n ref l = .ok ps) : ps.length = l.length := by
  obtain ⟨h1, -⟩ := posList_ok_eq n ref l ps h
  simp [h1]

/-- `all` over adjacent pairs is exactly `Chain'`. -/
theorem all_zip_tail_iff_chain (P : ℚ → ℚ → Prop) [DecidableRel P] :
    ∀ ps : List ℚ, ((ps.zip ps.tail).all fun q => decide (P q.1 q.2)) = true ↔
      List.Chain' P ps := by
  intro ps
  induction ps with
  | nil => simp
  | cons a t ih =>
      cases t with
      | nil => simp
      | cons b t2 =>
          simp only [List.tail_cons, List.zip_cons_cons, List.all_cons,
            Bool.and_eq_true, decide_eq_true_iff, List.chain'_cons]
          exact and_congr Iff.rfl ih

theorem argminPair_ne_none (a : ℚ) (rest : List ℚ) : argminPair (a :: rest) ≠ none := by
  unfold argminPair
  cases argminPair rest with
  | none => simp
  | some iv => cases iv with | mk i v => dsimp only; split <;> simp

/-- Specification of `np.argmin`: the returned index is in range, attains the
reported value, and that value is a minimum of the list. -/
theorem argminPair_spec :
    ∀ (l : List ℚ) (i : ℕ) (v : ℚ), argminPair l = some (i, v) →
      i < l.length ∧ l.getD i 0 = v ∧ ∀ j, j < l.length → v ≤ l.getD j 0 := by
  intro l
  induction l with
  | nil => intro i v h; simp [argminPair] at h
  | cons a rest ih =>
      intro i v h
      unfold argminPair at h
      cases hr : argminPair rest with
      | none =>
          have hrest : rest = [] := by
            cases rest with
            | nil => rfl
            | cons b t => exact absurd hr (argminPair_ne_none b t)
          rw [hr] at h
          cases h
          subst hrest
          refine ⟨by simp, by simp, ?_⟩
          intro j hj
          have hj0 : j = 0 := by simpa using Nat.lt_one_iff.1 hj
          subst hj0
          simp
      | some iv =>
          obtain ⟨i', v'⟩ := iv
          rw [hr] at h
          obtain ⟨hlen, hget, hmin⟩ := ih i' v' hr
          dsimp only at h
          split at h
          · cases h
            rename_i hle
            refine ⟨by simp, by simp, ?_⟩
            intro j hj
            cases j with
            | zero => simp
            | succ m =>
                have hm : m < rest.length := by simpa using hj
                have h2 := hmin m hm
                have h3 : (a :: rest).getD (m + 1) 0 = rest.getD m 0 := by simp
                rw [h3]
                exact le_trans hle h2
          · cases h
            rename_i hle
            refine ⟨by simpa using hlen, by simpa using hget, ?_⟩
            intro j hj
            cases j with
            | zero =>
                simpa using le_of_lt (not_le.1 hle)
            | succ m =>
                have hm : m < rest.length := by simpa using hj
                simpa using hmin m hm

/-- When the list has a unique zero at index `k` and is elsewhere positive,
`np.argmin` returns `k`. -/
theorem npArgmin_eq_of_unique_zero (A : List ℚ) (k : ℕ) (hk : k < A.length)
    (h0 : A.getD k 0 = 0) (hnn : ∀ j, j < A.length → 0 ≤ A.getD j 0)
    (hpos : ∀ j, j < A.length → j ≠ k → 0 < A.getD j 0) : npArgmin A = k := by
  have hne : A ≠ [] := by
    intro h
    rw [h] at hk
    simp at hk
  cases hA : argminPair A with
  | none =>
      cases A with
      | nil => exact absurd rfl hne
      | cons a t => exact absurd hA (argminPair_ne_none a t)
  | some iv =>
      obtain ⟨i, v⟩ := iv
      obtain ⟨hlen, hget, hmin⟩ := argminPair_spec A i v hA
      have hv0 : v ≤ 0 := h0 ▸ hmin k hk
      have hv0' : 0 ≤ v := hget ▸ hnn i hlen
      have hv : v = 0 := le_antisymm hv0 hv0'
      have hik : i = k := by
        by_contra hne'
        have := hpos i hlen hne'
        rw [hget, hv] at this
        exact lt_irrefl 0 this
      simp [npArgmin, hA, hik]

theorem getD_map_of_lt {α β : Type} (f : α → β) (l : List α) (m : ℕ) (da : α) (db : β)
    (h : m < l.length) : (l.map f).getD m db = f (l.getD m da) := by
  induction l generalizing m with
  | nil => simp at h
  | cons a t ih =>
      cases m with
      | zero => simp
      | succ m' => simpa using ih m' (by simpa using h)

/-! ## Landmark filtering lemmas (claim C3) -/

theorem filterAux_names_mem (src tgt : ReferencePoints) (θ : ℚ) (n : LandmarkName) :
    ∀ L : List LandmarkName,
      n ∈ (filterAux src tgt θ L).2.2 ↔
        n ∈ L ∧ sqrtLt (normSq3 (sub3 (src.get n) (tgt.get n))) θ = true := by
  intro L
  induction L with
  | nil => simp [filterAux]
  | cons m rest ih =>
      unfold filterAux
      by_cases hk : sqrtLt (normSq3 (sub3 (src.get m) (tgt.get m))) θ = true
      · simp only [hk, if_true, List.mem_cons]
        constructor
        · rintro (h | h)
          · subst h; exact ⟨by simp, hk⟩
          · obtain ⟨h1, h2⟩ := ih.1 h
            exact ⟨by simp [h1], h2⟩
        · rintro ⟨h1, h2⟩
          rcases h1 with h | h
          · exact Or.inl h
          · exact Or.inr (ih.2 ⟨h, h2⟩)
      · rw [if_neg hk]
        rw [ih]
        constructor
        · rintro ⟨h1, h2⟩
          exact ⟨by simp [h1], h2⟩
        · rintro ⟨h1, h2⟩
          rcases List.mem_cons.1 h1 with h | h
          · subst h; exact absurd h2 hk
          · exact ⟨h, h2⟩

theorem filterAux_points (src tgt : ReferencePoints) (θ : ℚ) :
    ∀ L : List LandmarkName,
      (filterAux src tgt θ L).1 = ((filterAux src tgt θ L).2.2).map src.get ∧
      (filterAux src tgt θ L).2.1 = ((filterAux src tgt θ L).2.2).map tgt.get := by
  intro L
  induction L with
  | nil => simp [filterAux]
  | cons m rest ih =>
      unfold filterAux
      by_cases hk : sqrtLt (normSq3 (sub3 (src.get m) (tgt.get m))) θ = true
      · simp [hk, ih.1, ih.2]
      · simp [hk, ih.1, ih.2]

/-! ## Claim theorems: C1, C3 -/

/-- C1: for every study (hence every segmentation volume, of any shape and
label content), both registrars applied at the segmentation's native modality
COR_T1 return the segmentation's pixel volume unchanged; being the
short-circuit branch, the result is `ok` for every study regardless of cached
series, so no series access or numerical work is involved. -/
theorem C1_identity_registration :
    ∀ (s : Study) (θ : ℚ),
      register_segmentation s ModalityType.cor_t1 = .ok s.segmentation.pixels ∧
      register_segmentation_with_filtered_landmarks s ModalityType.cor_t1 θ =
        .ok s.segmentation.pixels := by
  intro s θ
  exact ⟨rfl, rfl⟩

/-- C3: a landmark pair is retained exactly when its patient-space Euclidean
distance is strictly below the threshold; distance exactly equal to the
threshold is excluded, and distance `θ - ε` (ε > 0) is included. -/
theorem C3_landmark_filter_boundary (src tgt : ReferencePoints) (θ : ℚ) (n : LandmarkName) :
    (n ∈ used_landmarks src tgt θ ↔
        Real.sqrt ((normSq3 (sub3 (src.get n) (tgt.get n)) : ℚ) : ℝ) < (θ : ℝ)) ∧
    (Real.sqrt ((normSq3 (sub3 (src.get n) (tgt.get n)) : ℚ) : ℝ) = (θ : ℝ) →
      n ∉ used_landmarks src tgt θ) ∧
    (∀ ε : ℝ, 0 < ε →
      Real.sqrt ((normSq3 (sub3 (src.get n) (tgt.get n)) : ℚ) : ℝ) = (θ : ℝ) - ε →
      n ∈ used_landmarks src tgt θ) := by
  have hmemL : n ∈ landmark_names := by cases n <;> simp [landmark_names]
  have hiff : n ∈ used_landmarks src tgt θ ↔
      Real.sqrt ((normSq3 (sub3 (src.get n) (tgt.get n)) : ℚ) : ℝ) < (θ : ℝ) := by
    rw [used_landmarks, filter_landmarks, filterAux_names_mem]
    rw [sqrtLt_iff]
    simp [hmemL]
  refine ⟨hiff, ?_, ?_⟩
  · intro heq hmem
    have := hiff.1 hmem
    rw [heq] at this
    exact lt_irrefl _ this
  · intro ε hε heq
    refine hiff.2 ?_
    rw [heq]
    linarith

/-- C3 witness: with threshold 5 and a landmark displaced by `(3, 4, 0)` the
distance is exactly 5 and the pair is excluded. -/
theorem C3_landmark_filter_boundary_witness :
    Real.sqrt ((normSq3 (sub3 (rpFive.get .lat_acr_border) (rpZero.get .lat_acr_border)) : ℚ) : ℝ) =
      ((5 : ℚ) : ℝ) ∧
    LandmarkName.lat_acr_border ∉ used_landmarks rpFive rpZero 5 := by
  have h25 : (normSq3 (sub3 (rpFive.get .lat_acr_border) (rpZero.get .lat_acr_border)) : ℚ) =
      (25 : ℚ) := by
    norm_num [rpFive, rpZero, ReferencePoints.get, sub3, normSq3]
  have hsq : Real.sqrt (((25 : ℚ) : ℝ)) = ((5 : ℚ) : ℝ) := by
    rw [show (((25 : ℚ)) : ℝ) = ((5 : ℚ) : ℝ) ^ 2 by norm_num]
    exact Real.sqrt_sq (by norm_num)
  have heq : Real.sqrt ((normSq3 (sub3 (rpFive.get .lat_acr_border) (rpZero.get .lat_acr_border)) : ℚ) : ℝ) =
      ((5 : ℚ) : ℝ) := by rw [h25]; exact hsq
  exact ⟨heq, (C3_landmark_filter_boundary rpFive rpZero 5 .lat_acr_border).2.1 heq⟩

/-! ## Claim C10: slice-spacing derivation of the dense registrar -/

/-- C10: the dense registrar derives through-plane spacing as the absolute
projection of `ipp[1] - ipp[0]` onto the slice normal when two or more slices
exist, else as `SliceThickness` defaulting to 1; this value (packed into the
geometry by `extract_geom`) is the divisor of the through-plane source index
in the per-voxel mapping. -/
theorem C10_slice_spacing_derivation :
    (∀ (d0 d1 : DicomSlice) (rest : List DicomSlice) (origin sdir p1 : Vec3),
      d1.ImagePositionPatient = some p1 →
      slice_spacing_of (d0 :: d1 :: rest) origin sdir = .ok |dot3 (sub3 p1 origin) sdir|) ∧
    (∀ (d0 : DicomSlice) (origin sdir : Vec3),
      slice_spacing_of [d0] origin sdir = .ok (d0.SliceThickness.getD 1)) ∧
    (∀ (g : SeriesGeom) (p : Vec3),
      (dense_src_index g p).2.2 =
        npRound (dot3 (sub3 p g.origin) g.slice_dir / g.slice_spacing)) ∧
    (∀ (dcm : DicomDataset) (g : SeriesGeom) (d0 d1 : DicomSlice)
        (rest : List DicomSlice) (p0 p1 : Vec3),
      extract_geom dcm = .ok g → dcm.dataset = d0 :: d1 :: rest →
      d0.ImagePositionPatient = some p0 → d1.ImagePositionPatient = some p1 →
      g.slice_dir = cross3 d0.ImageOrientationPatient.1 d0.ImageOrientationPatient.2 ∧
      g.origin = p0 ∧
      g.slice_spacing =
        |dot3 (sub3 p1 p0)
          (cross3 d0.ImageOrientationPatient.1 d0.ImageOrientationPatient.2)|) ∧
    (∀ (dcm : DicomDataset) (g : SeriesGeom) (d0 : DicomSlice),
      extract_geom dcm = .ok g → dcm.dataset = [d0] →
      g.slice_spacing = d0.SliceThickness.getD 1) := by
  have h2slice : ∀ (d0 d1 : DicomSlice) (rest : List DicomSlice) (origin sdir p1 : Vec3),
      d1.ImagePositionPatient = some p1 →
      slice_spacing_of (d0 :: d1 :: rest) origin sdir = .ok |dot3 (sub3 p1 origin) sdir| := by
    intro d0 d1 rest origin sdir p1 h1
    simp [slice_spacing_of, getIPP_some d1 p1 h1, bind_ok_eq]
  refine ⟨h2slice, ?_, ?_, ?_, ?_⟩
  · intro d0 origin sdir
    rfl
  · intro g p
    rfl
  · intro dcm g d0 d1 rest p0 p1 hg hds h0 h1
    rw [extract_geom, hds] at hg
    dsimp only at hg
    rw [getIPP_some d0 p0 h0, bind_ok_eq] at hg
    rw [h2slice d0 d1 rest p0 _ p1 h1, bind_ok_eq] at hg
    cases hg
    exact ⟨rfl, rfl, rfl⟩
  · intro dcm g d0 hg hds
    rw [extract_geom, hds] at hg
    dsimp only at hg
    cases h0 : d0.ImagePositionPatient with
    | none => rw [getIPP_none d0 h0, bind_error_eq] at hg; cases hg
    | some p0 =>
        rw [getIPP_some d0 p0 h0, bind_ok_eq] at hg
        rw [show slice_spacing_of [d0] p0 (cross3 d0.ImageOrientationPatient.1
          d0.ImageOrientationPatient.2) = .ok (d0.SliceThickness.getD 1) from rfl,
          bind_ok_eq] at hg
        cases hg
        rfl

/-- C10 witness: the two-slice axial fixture yields the identity geometry with
spacing derived from the slice-position difference. -/
theorem C10_slice_spacing_derivation_witness :
    extract_geom seriesAsc = .ok geomId ∧
    geomId.slice_spacing =
      |dot3 (sub3 ⟨0, 0, 1⟩ ⟨0, 0, 0⟩)
        (cross3 (sliceAt 0).ImageOrientationPatient.1 (sliceAt 0).ImageOrientationPatient.2)| := by
  have hg : extract_geom seriesAsc = .ok geomId := by
    have h1 : (sliceAt 1).ImagePositionPatient = some ⟨0, 0, 1⟩ := rfl
    rw [show seriesAsc = ⟨[sliceAt 0, sliceAt 1]⟩ from rfl]
    rw [extract_geom]
    dsimp only
    rw [getIPP_some (sliceAt 0) ⟨0, 0, 0⟩ rfl, bind_ok_eq]
    rw [show slice_spacing_of [sliceAt 0, sliceAt 1] ⟨0, 0, 0⟩
        (cross3 (sliceAt 0).ImageOrientationPatient.1 (sliceAt 0).ImageOrientationPatient.2) =
        .ok |dot3 (sub3 ⟨0, 0, 1⟩ ⟨0, 0, 0⟩)
          (cross3 (sliceAt 0).ImageOrientationPatient.1 (sliceAt 0).ImageOrientationPatient.2)|
      by simp [slice_spacing_of, getIPP_some (sliceAt 1) _ h1, bind_ok_eq], bind_ok_eq]
    congr 1
    simp only [geomId, sliceAt, SeriesGeom.mk.injEq]
    norm_num [cross3, dot3, sub3]
  have h := C10_slice_spacing_derivation.2.2.2.1 seriesAsc geomId (sliceAt 0) (sliceAt 1)
    [] ⟨0, 0, 0⟩ ⟨0, 0, 1⟩ hg rfl rfl rfl
  exact ⟨hg, h.2.2⟩

/-! ## Dense resampling loop characterization (claim C2) -/

theorem writeCell_get (v : Vol3) (y x z : ℕ) (lbl : Option ℕ) (a b c : ℕ) :
    (writeCell v y x z lbl).get a b c =
      if a = y ∧ b = x ∧ c = z then lbl.getD (v.get a b c) else v.get a b c := by
  cases lbl with
  | none =>
      simp only [writeCell, Option.getD_none]
      split <;> rfl
  | some n => simp only [writeCell, Vol3.set, Option.getD_some]

theorem loopX_get (f : ℕ → ℕ → ℕ → Option ℕ) (y z : ℕ) (a b c : ℕ) :
    ∀ (nx : ℕ) (v : Vol3),
      (loopX f y z nx v).get a b c =
        if a = y ∧ c = z ∧ b < nx then (f a b c).getD (v.get a b c) else v.get a b c := by
  intro nx
  induction nx with
  | zero =>
      intro v
      simp [loopX]
  | succ n ih =>
      intro v
      have hstep : loopX f y z (n + 1) v = writeCell (loopX f y z n v) y n z (f y n z) := by
        rw [loopX, List.range_succ, List.foldl_append]
        rfl
      rw [hstep, writeCell_get, ih]
      by_cases ha : a = y <;> by_cases hc : c = z
      · subst ha; subst hc
        by_cases hb : b = n
        · subst hb
          simp [lt_irrefl, Nat.lt_succ_iff]
        · by_cases hbn : b < n
          · simp [hb, hbn, Nat.lt_succ_iff, le_of_lt hbn]
          · have : ¬ b < n + 1 := by omega
            simp [hb, hbn, this]
      · simp [ha, hc]
      · simp [ha, hc]
      · simp [ha, hc]

theorem loopY_get (f : ℕ → ℕ → ℕ → Option ℕ) (z nx : ℕ) (a b c : ℕ) :
    ∀ (ny : ℕ) (v : Vol3),
      (loopY f z ny nx v).get a b c =
        if c = z ∧ a < ny ∧ b < nx then (f a b c).getD (v.get a b c) else v.get a b c := by
  intro ny
  induction ny with
  | zero =>
      intro v
      simp [loopY]
  | succ n ih =>
      intro v
      have hstep : loopY f z (n + 1) nx v = loopX f n z nx (loopY f z n nx v) := by
        rw [loopY, List.range_succ, List.foldl_append]
        rfl
      rw [hstep, loopX_get, ih]
      by_cases hc : c = z <;> by_cases hb : b < nx
      · by_cases ha : a = n
        · subst ha
          simp [hc, hb, lt_irrefl, Nat.lt_succ_iff]
        · by_cases han : a < n
          · simp [hc, hb, ha, han, Nat.lt_succ_iff, le_of_lt han]
          · have : ¬ a < n + 1 := by omega
            simp [hc, hb, ha, han, this]
      · simp [hc, hb]
      · simp [hc, hb]
      · simp [hc, hb]

theorem loopZ_get (f : ℕ → ℕ → ℕ → Option ℕ) (ny nx : ℕ) (a b c : ℕ) :
    ∀ (nz : ℕ) (v : Vol3),
      (loopZ f nz ny nx v).get a b c =
        if c < nz ∧ a < ny ∧ b < nx then (f a b c).getD (v.get a b c) else v.get a b c := by
  intro nz
  induction nz with
  | zero =>
      intro v
      simp [loopZ]
  | succ n ih =>
      intro v
      have hstep : loopZ f (n + 1) ny nx v = loopY f n ny nx (loopZ f n ny nx v) := by
        rw [loopZ, List.range_succ, List.foldl_append]
        rfl
      rw [hstep, loopY_get, ih]
      by_cases ha : a < ny <;> by_cases hb : b < nx
      · by_cases hcn : c = n
        · subst hcn
          simp [ha, hb, lt_irrefl, Nat.lt_succ_iff]
        · by_cases hcl : c < n
          · simp [ha, hb, hcn, hcl, Nat.lt_succ_iff, le_of_lt hcl]
          · have : ¬ c < n + 1 := by omega
            simp [ha, hb, hcn, hcl, this]
      · simp [ha, hb]
      · simp [ha, hb]
      · simp [ha, hb]

/-- C2: in the dense registrar, every in-range target voxel receives the
source label at the rounded mapped index when that index is within the source
volume's bounds, and background 0 otherwise; consequently every output voxel
is either 0 or a label value present in the source volume. -/
theorem C2_dense_voxel_copy (seg : Vol3) (gs gt : SeriesGeom) (Y X Z y x z : ℕ)
    (hy : y < Y) (hx : x < X) (hz : z < Z) :
    ((dense_resample seg gs gt (Y, X, Z)).get y x z =
      (if 0 ≤ (dense_src_index gs (dense_patient_pos gt y x z)).1 ∧
          (dense_src_index gs (dense_patient_pos gt y x z)).1 < (seg.sy : ℤ) ∧
          0 ≤ (dense_src_index gs (dense_patient_pos gt y x z)).2.1 ∧
          (dense_src_index gs (dense_patient_pos gt y x z)).2.1 < (seg.sx : ℤ) ∧
          0 ≤ (dense_src_index gs (dense_patient_pos gt y x z)).2.2 ∧
          (dense_src_index gs (dense_patient_pos gt y x z)).2.2 < (seg.sz : ℤ) then
        seg.get (dense_src_index gs (dense_patient_pos gt y x z)).1.toNat
          (dense_src_index gs (dense_patient_pos gt y x z)).2.1.toNat
          (dense_src_index gs (dense_patient_pos gt y x z)).2.2.toNat
      else 0)) ∧
    ((dense_resample seg gs gt (Y, X, Z)).get y x z = 0 ∨
      ∃ a b c, a < seg.sy ∧ b < seg.sx ∧ c < seg.sz ∧
        (dense_resample seg gs gt (Y, X, Z)).get y x z = seg.get a b c) := by
  have hmain : (dense_resample seg gs gt (Y, X, Z)).get y x z =
      (src_label_at seg (dense_src_index gs (dense_patient_pos gt y x z))).getD 0 := by
    rw [dense_resample]
    rw [loopZ_get]
    simp [hy, hx, hz, Vol3.zeros]
  constructor
  · rw [hmain, src_label_at]
    split <;> simp
  · rw [hmain, src_label_at]
    split
    · rename_i hcond
      right
      refine ⟨(dense_src_index gs (dense_patient_pos gt y x z)).1.toNat,
        (dense_src_index gs (dense_patient_pos gt y x z)).2.1.toNat,
        (dense_src_index gs (dense_patient_pos gt y x z)).2.2.toNat,
        ?_, ?_, ?_, by simp⟩ <;> omega
    · left
      simp

/-- C2 witness: with identity geometries, a 1x1x1 source volume of label 7 and
a 1x1x1 target, the target voxel (0,0,0) maps in bounds and receives 7. -/
theorem C2_dense_voxel_copy_witness :
    (dense_resample segOne geomId geomId (1, 1, 1)).get 0 0 0 = 7 := by
  have h := (C2_dense_voxel_copy segOne geomId geomId 1 1 1 0 0 0
    (by norm_num) (by norm_num) (by norm_num)).1
  rw [h]
  have hidx : dense_src_index geomId (dense_patient_pos geomId 0 0 0) = (0, 0, 0) := by
    have hpos : dense_patient_pos geomId 0 0 0 = ⟨0, 0, 0⟩ := by
      simp only [dense_patient_pos, geomId, add3, smul3, Vec3.mk.injEq]
      norm_num
    rw [hpos]
    simp only [dense_src_index, geomId, sub3, dot3, Prod.mk.injEq]
    norm_num [npRound]
  rw [hidx]
  norm_num [segOne]

/-! ## Claim C7: sortedness check semantics -/

/-- C7: for a series of two or more slices, `_is_sorted` returns exactly the
non-decreasing-within-tolerance test of consecutive projections; the
non-increasing test never influences the result, so a strictly decreasing
series (drops beyond the tolerance) is reported as not sorted. -/
theorem C7_is_sorted_semantics (d0 d1 : DicomSlice) (rest : List DicomSlice) (tol : ℚ)
    (p0 : Vec3) (ps : List ℚ)
    (h0 : d0.ImagePositionPatient = some p0)
    (hps : posList (cross3 d0.ImageOrientationPatient.1 d0.ImageOrientationPatient.2) p0
      (d0 :: d1 :: rest) = .ok ps) :
    (is_sorted (d0 :: d1 :: rest) tol = .ok (isIncreasing ps tol)) ∧
    (is_sorted (d0 :: d1 :: rest) tol = .ok true ↔
      List.Chain' (fun a b => b - a ≥ -tol) ps) ∧
    (List.Chain' (fun a b => b < a - tol) ps →
      is_sorted (d0 :: d1 :: rest) tol = .ok false) := by
  have hmain : is_sorted (d0 :: d1 :: rest) tol = .ok (isIncreasing ps tol) := by
    rw [is_sorted]
    dsimp only
    rw [getIPP_some d0 p0 h0, bind_ok_eq, hps, bind_ok_eq]
  have hlen : ps.length = rest.length + 2 := by
    simpa using posList_length _ _ _ _ hps
  refine ⟨hmain, ?_, ?_⟩
  · rw [hmain]
    constructor
    · intro h
      have : isIncreasing ps tol = true := by
        cases hinc : isIncreasing ps tol
        · rw [hinc] at h; cases h
        · rfl
      rw [isIncreasing] at this
      exact (all_zip_tail_iff_chain (fun a b => b - a ≥ -tol) ps).1 this
    · intro h
      have : isIncreasing ps tol = true :=
        (all_zip_tail_iff_chain (fun a b => b - a ≥ -tol) ps).2 h
      rw [this]
  · intro hdec
    rw [hmain]
    have hfalse : isIncreasing ps tol = false := by
      cases hinc : isIncreasing ps tol
      · rfl
      · exfalso
        have hch := (all_zip_tail_iff_chain (fun a b => b - a ≥ -tol) ps).1 hinc
        cases ps with
        | nil => simp at hlen
        | cons a t =>
            cases t with
            | nil => simp at hlen
            | cons b t2 =>
                have h1 : b - a ≥ -tol := (List.chain'_cons.1 hch).1
                have h2 : b < a - tol := (List.chain'_cons.1 hdec).1
                linarith
    rw [hfalse]

/-- C7 witness: the strictly descending two-slice fixture has positions
`[0, -1]` and is reported as not sorted at the default tolerance. -/
theorem C7_is_sorted_semantics_witness :
    is_sorted slicesDesc tolDefault = .ok false := by
  have hsome : ∀ d ∈ slicesDesc, d.ImagePositionPatient.isSome := by
    intro d hd
    rcases List.mem_cons.1 hd with h | h
    · subst h; rfl
    · rcases List.mem_cons.1 h with h' | h'
      · subst h'; rfl
      · simp at h'
  have hps : posList (cross3 (sliceAt 0).ImageOrientationPatient.1
      (sliceAt 0).ImageOrientationPatient.2) ⟨0, 0, 0⟩ slicesDesc = .ok [0, -1] := by
    rw [posList_of_all_some _ _ _ hsome]
    congr 1
    norm_num [slicesDesc, sliceAt, posKey, dot3, sub3, cross3]
  have h := (C7_is_sorted_semantics (sliceAt 0) (sliceAt (-1)) [] tolDefault ⟨0, 0, 0⟩
    [0, -1] rfl hps).2.2
  refine h ?_
  refine List.chain'_cons.2 ⟨?_, by simp⟩
  norm_num [tolDefault]

/-! ## Claim C6: internal truncation of the coordinate mapper -/

/-- C6 (amended): the in-plane indices are solved as floats, but
`patient_to_image_coordinate` itself truncates them toward zero (`int()`) in
its return statement, so callers receive already-discrete indices. -/
theorem C6_truncation_at_return :
    ∀ (p : Vec3) (series : DicomDataset) (t : ℤ × ℤ × ℕ),
      patient_to_image_coordinate p series = .ok t →
      ∃ ij : ℚ × ℚ, in_plane_solution p series = .ok ij ∧
        t.1 = pyInt ij.2 ∧ t.2.1 = pyInt ij.1 ∧
        (∀ q : ℚ, 0 ≤ q → pyInt q = ⌊q⌋) ∧ (∀ q : ℚ, q < 0 → pyInt q = ⌈q⌉) := by
  intro p series t h
  cases hds : series.dataset with
  | nil =>
      rw [patient_to_image_coordinate, hds] at h
      cases h
  | cons d0 rest =>
      rw [patient_to_image_coordinate, hds] at h
      dsimp only at h
      rw [in_plane_solution, hds]
      dsimp only
      cases hsel : slice_selection p d0 rest with
      | error e =>
          rw [hsel, bind_error_eq] at h
          cases h
      | ok sel =>
          rw [hsel, bind_ok_eq] at h
          rw [bind_ok_eq]
          cases hipp : getIPP sel.2 with
          | error e =>
              rw [hipp, bind_error_eq] at h
              cases h
          | ok ippk =>
              rw [hipp, bind_ok_eq] at h
              rw [bind_ok_eq]
              cases h
              exact ⟨_, rfl, rfl, rfl, fun q hq => pyInt_nonneg_eq_floor q hq,
                fun q hq => pyInt_neg_eq_ceil q hq⟩

/-- Evaluation of the coordinate mapper at the fixture query: the float
solution is `(1/2, 1/2)` and the returned triple is `(0, 0, 0)`. -/
theorem mapper_fixture_eval :
    patient_to_image_coordinate ptHalf seriesOne = .ok (0, 0, 0) ∧
    in_plane_solution ptHalf seriesOne = .ok (1/2, 1/2) := by
  have hpl : posList (cross3 (sliceAt 0).ImageOrientationPatient.1
      (sliceAt 0).ImageOrientationPatient.2) ⟨0, 0, 0⟩ [sliceAt 0] =
      .ok ([sliceAt 0].map (posKey (cross3 (sliceAt 0).ImageOrientationPatient.1
        (sliceAt 0).ImageOrientationPatient.2) ⟨0, 0, 0⟩)) := by
    apply posList_of_all_some
    intro d hd
    rcases List.mem_cons.1 hd with h | h
    · subst h; rfl
    · simp at h
  have hsel : slice_selection ptHalf (sliceAt 0) [] = .ok (0, sliceAt 0) := by
    rw [slice_selection]
    rw [getIPP_some (sliceAt 0) ⟨0, 0, 0⟩ rfl, bind_ok_eq]
    dsimp only
    rw [hpl, bind_ok_eq]
    rfl
  have hlst : lstsq2 (smul3 (sliceAt 0).PixelSpacing.2 (sliceAt 0).ImageOrientationPatient.1)
      (smul3 (sliceAt 0).PixelSpacing.1 (sliceAt 0).ImageOrientationPatient.2)
      (sub3 ptHalf ⟨0, 0, 0⟩) = (1/2, 1/2) := by
    rw [lstsq2]
    norm_num [sliceAt, ptHalf, smul3, sub3, dot3]
  constructor
  · rw [patient_to_image_coordinate]
    rw [show seriesOne.dataset = [sliceAt 0] from rfl]
    dsimp only
    rw [hsel, bind_ok_eq]
    dsimp only
    rw [getIPP_some (sliceAt 0) ⟨0, 0, 0⟩ rfl, bind_ok_eq]
    rw [hlst]
    norm_num [pyInt]
  · rw [in_plane_solution]
    rw [show seriesOne.dataset = [sliceAt 0] from rfl]
    dsimp only
    rw [hsel, bind_ok_eq]
    dsimp only
    rw [getIPP_some (sliceAt 0) ⟨0, 0, 0⟩ rfl, bind_ok_eq]
    rw [hlst]

/-- C6 counterexample to the claim as stated: at a query point half a pixel
off the grid, the float least-squares solution is `(1/2, 1/2)` but the
function returns the truncated triple `(0, 0, 0)` — truncation happens inside
`patient_to_image_coordinate`, not at its call site. -/
theorem C6_counterexample :
    patient_to_image_coordinate ptHalf seriesOne = .ok (0, 0, 0) ∧
    in_plane_solution ptHalf seriesOne = .ok (1/2, 1/2) ∧
    ((0 : ℚ) ≠ 1/2) :=
  ⟨mapper_fixture_eval.1, mapper_fixture_eval.2, by norm_num⟩

/-- C6 amended-claim witness at the same concrete input. -/
theorem C6_truncation_at_return_witness :
    ∃ ij : ℚ × ℚ, in_plane_solution ptHalf seriesOne = .ok ij ∧
      ((0, 0, 0) : ℤ × ℤ × ℕ).1 = pyInt ij.2 ∧
      ((0, 0, 0) : ℤ × ℤ × ℕ).2.1 = pyInt ij.1 ∧
      (∀ q : ℚ, 0 ≤ q → pyInt q = ⌊q⌋) ∧ (∀ q : ℚ, q < 0 → pyInt q = ⌈q⌉) :=
  C6_truncation_at_return ptHalf seriesOne (0, 0, 0) mapper_fixture_eval.1

/-! ## Claim C4: no landmark-count check -/

theorem ok_ne_error {α : Type} (a : α) (e : PyErr) :
    (Except.ok a : Except PyErr α) ≠ .error e := fun h => by cases h

theorem error_ne_error {α : Type} (e e' : PyErr) (h : e ≠ e') :
    (Except.error e : Except PyErr α) ≠ .error e' := fun hc => h (Except.error.inj hc)

theorem except_bind_ne {α β : Type} (x : Except PyErr α) (f : α → Except PyErr β) (e : PyErr)
    (hx : x ≠ .error e) (hf : ∀ a, f a ≠ .error e) : (x >>= f) ≠ .error e := by
  cases x with
  | error e' =>
      rw [bind_error_eq]
      intro hc
      exact hx (by rw [Except.error.inj hc])
  | ok a => rw [bind_ok_eq]; exact hf a

theorem getIPP_ne (d : DicomSlice) (e : PyErr) (h : e ≠ .missingTag) :
    getIPP d ≠ .error e := by
  cases hd : d.ImagePositionPatient with
  | some p => rw [getIPP_some d p hd]; exact ok_ne_error _ _
  | none => rw [getIPP_none d hd]; exact error_ne_error _ _ (Ne.symm h)

theorem posList_ne_insufficient (n ref : Vec3) :
    ∀ l : List DicomSlice, posList n ref l ≠ .error .insufficientLandmarks := by
  intro l
  induction l with
  | nil => exact ok_ne_error _ _
  | cons d rest ih =>
      rw [posList]
      refine except_bind_ne _ _ _ (getIPP_ne d _ (by decide)) ?_
      intro p
      refine except_bind_ne _ _ _ ih ?_
      intro ps
      exact ok_ne_error _ _

theorem slice_selection_ne_insufficient (p : Vec3) (d0 : DicomSlice) (rest : List DicomSlice) :
    slice_selection p d0 rest ≠ .error .insufficientLandmarks := by
  rw [slice_selection]
  dsimp only
  refine except_bind_ne _ _ _ (getIPP_ne d0 _ (by decide)) ?_
  intro ipp
  refine except_bind_ne _ _ _ (posList_ne_insufficient _ _ _) ?_
  intro ps
  exact ok_ne_error _ _

theorem patient_to_image_coordinate_ne_insufficient (p : Vec3) (series : DicomDataset) :
    patient_to_image_coordinate p series ≠ .error .insufficientLandmarks := by
  rw [patient_to_image_coordinate]
  cases series.dataset with
  | nil => exact error_ne_error _ _ (by decide)
  | cons d0 rest =>
      dsimp only
      refine except_bind_ne _ _ _ (slice_selection_ne_insufficient p d0 rest) ?_
      intro sel
      refine except_bind_ne _ _ _ (getIPP_ne _ _ (by decide)) ?_
      intro ippk
      exact ok_ne_error _ _

/-- The list comprehension `[f(x) for x in l]` over fallible `f`. -/
theorem mapExcept_ne_insufficient {α β : Type} (f : α → Except PyErr β)
    (hf : ∀ a, f a ≠ .error .insufficientLandmarks) :
    ∀ l : List α, l.mapM f ≠ .error .insufficientLandmarks := by
  intro l
  induction l with
  | nil => exact ok_ne_error _ _
  | cons a rest ih =>
      rw [List.mapM_cons]
      refine except_bind_ne _ _ _ (hf a) ?_
      intro b
      refine except_bind_ne _ _ _ ih ?_
      intro bs
      exact ok_ne_error _ _

theorem read_image_ne_insufficient (s : Study) (mod : ModalityType) :
    s.read_image mod ≠ .error .insufficientLandmarks := by
  rw [Study.read_image.eq_def]
  cases mod <;> dsimp only <;>
    first
      | (cases s.cor_pdf_images <;> first | exact error_ne_error _ _ (by decide) | exact ok_ne_error _ _)
      | (cases s.cor_t2_images <;> first | exact error_ne_error _ _ (by decide) | exact ok_ne_error _ _)
      | (cases s.sag_t2_images <;> first | exact error_ne_error _ _ (by decide) | exact ok_ne_error _ _)
      | (cases s.tra_pdf_images <;> first | exact error_ne_error _ _ (by decide) | exact ok_ne_error _ _)

theorem target_shape_ne_insufficient (d : DicomDataset) :
    target_shape_of d ≠ .error .insufficientLandmarks := by
  rw [target_shape_of, DicomDataset.pixelArrayShape]
  cases d.dataset with
  | nil => exact except_bind_ne _ _ _ (error_ne_error _ _ (by decide)) fun s => ok_ne_error _ _
  | cons d0 rest => exact except_bind_ne _ _ _ (ok_ne_error _ _) fun s => ok_ne_error _ _

theorem get_reference_points_ne_insufficient (s : Study) (mod : ModalityType) :
    s.get_reference_points mod ≠ .error .insufficientLandmarks := by
  cases mod
  · exact error_ne_error _ _ (by decide)
  · exact ok_ne_error _ _
  · exact ok_ne_error _ _
  · exact ok_ne_error _ _

theorem landmark_pipeline_ne_insufficient (study : Study) (modality : ModalityType) (θ : ℚ) :
    landmark_pipeline study modality θ ≠ .error .insufficientLandmarks := by
  rw [landmark_pipeline]
  refine except_bind_ne _ _ _ (read_image_ne_insufficient study _) ?_
  intro src_dcm
  refine except_bind_ne _ _ _ (read_image_ne_insufficient study _) ?_
  intro target_dcm
  dsimp only
  refine except_bind_ne _ _ _ (target_shape_ne_insufficient _) ?_
  intro shape
  refine except_bind_ne _ _ _ (get_reference_points_ne_insufficient study _) ?_
  intro target_ref
  dsimp only
  refine except_bind_ne _ _ _
    (mapExcept_ne_insufficient _ (fun p => patient_to_image_coordinate_ne_insufficient p src_dcm) _) ?_
  intro src_pts
  refine except_bind_ne _ _ _
    (mapExcept_ne_insufficient _ (fun p => patient_to_image_coordinate_ne_insufficient p target_dcm) _) ?_
  intro tgt_pts
  dsimp only
  split
  · exact error_ne_error _ _ (by decide)
  · exact ok_ne_error _ _

/-- C4: the landmark registrar never raises a count-based error — the error
type's `insufficientLandmarks` case is unreachable — and for a non-native
modality it always runs the post-filter pipeline (least-squares estimation and
resampling) even when fewer than 4 landmark pairs survive filtering. -/
theorem C4_no_landmark_count_check :
    ∀ (study : Study) (modality : ModalityType) (θ : ℚ),
      (register_segmentation_with_filtered_landmarks study modality θ ≠
        .error PyErr.insufficientLandmarks) ∧
      (∀ tgtRef : ReferencePoints, modality ≠ ModalityType.cor_t1 →
        study.get_reference_points modality = .ok tgtRef →
        (used_landmarks study.cor_t1_reference_points tgtRef θ).length < 4 →
        register_segmentation_with_filtered_landmarks study modality θ =
          landmark_pipeline study modality θ) := by
  intro study modality θ
  constructor
  · rw [register_segmentation_with_filtered_landmarks]
    split
    · exact ok_ne_error _ _
    · exact landmark_pipeline_ne_insufficient study modality θ
  · intro tgtRef hm _ _
    rw [register_segmentation_with_filtered_landmarks, if_neg hm]

theorem sqrtLt_zero (s : ℚ) : sqrtLt s 0 = false := by
  simp [sqrtLt]

/-- C4 witness: with threshold 0 no landmark survives (0 retained pairs < 4),
yet the registrar still equals the unchecked pipeline. -/
theorem C4_no_landmark_count_check_witness :
    (used_landmarks studyFix.cor_t1_reference_points rpZero 0).length < 4 ∧
    register_segmentation_with_filtered_landmarks studyFix ModalityType.sag_t2 0 =
      landmark_pipeline studyFix ModalityType.sag_t2 0 := by
  have hlen : (used_landmarks studyFix.cor_t1_reference_points rpZero 0).length < 4 := by
    simp [used_landmarks, filter_landmarks, landmark_names, filterAux, sqrtLt_zero]
  exact ⟨hlen, (C4_no_landmark_count_check studyFix ModalityType.sag_t2 0).2 rpZero
    (by decide) rfl hlen⟩

/-! ## Sorting machinery (claims C8, C9) -/

theorem zip_map_fst_prop (f : DicomSlice → ℚ) :
    ∀ (l : List DicomSlice) (pr : ℚ × DicomSlice), pr ∈ (l.map f).zip l → pr.1 = f pr.2 := by
  intro l
  induction l with
  | nil => intro pr h; simp at h
  | cons d rest ih =>
      intro pr h
      rw [List.map_cons, List.zip_cons_cons] at h
      rcases List.mem_cons.1 h with h' | h'
      · subst h'; rfl
      · exact ih pr h'

theorem chain'_zip_left (P : ℚ → ℚ → Prop) :
    ∀ (ps : List ℚ) (l : List DicomSlice), List.Chain' P ps →
      List.Chain' (fun p q : ℚ × DicomSlice => P p.1 q.1) (ps.zip l) := by
  intro ps
  induction ps with
  | nil => intro l _; simp
  | cons a t ih =>
      intro l h
      cases l with
      | nil => simp
      | cons d ld =>
          cases t with
          | nil => simp
          | cons b t2 =>
              cases ld with
              | nil => simp
              | cons e le =>
                  rw [List.zip_cons_cons, List.zip_cons_cons, List.chain'_cons]
                  refine ⟨(List.chain'_cons.1 h).1, ?_⟩
                  rw [← List.zip_cons_cons]
                  exact ih (e :: le) (List.chain'_cons.1 h).2

/-- A sorted-by-projection series stays put: `_sort_dicom_series` is the
identity on a series whose position list is non-decreasing. -/
theorem sort_dicom_series_noop (d0 : DicomSlice) (rest : List DicomSlice) (p0 : Vec3)
    (ps : List ℚ) (h0 : d0.ImagePositionPatient = some p0)
    (hps : posList (cross3 d0.ImageOrientationPatient.1 d0.ImageOrientationPatient.2) p0
      (d0 :: rest) = .ok ps)
    (hchain : List.Chain' (· ≤ ·) ps) :
    sort_dicom_series (d0 :: rest) = .ok (d0 :: rest) := by
  rw [sort_dicom_series]
  dsimp only
  rw [getIPP_some _ _ h0, bind_ok_eq, hps, bind_ok_eq]
  have hsorted : List.Sorted keyLE (ps.zip (d0 :: rest)) :=
    (List.chain'_iff_pairwise).1 (chain'_zip_left (· ≤ ·) ps (d0 :: rest) hchain)
  rw [List.Sorted.insertionSort_eq hsorted]
  rw [List.map_snd_zip ps (d0 :: rest) (le_of_eq (posList_length _ _ _ _ hps).symm)]

/-- The slices returned by `_sort_dicom_series` are a permutation of the
input. -/
theorem sort_dicom_series_perm (l out : List DicomSlice)
    (hout : sort_dicom_series l = .ok out) : out.Perm l := by
  cases l with
  | nil =>
      rw [sort_dicom_series] at hout
      cases hout
      exact List.Perm.refl _
  | cons d0 rest =>
      rw [sort_dicom_series] at hout
      dsimp only at hout
      cases h0 : d0.ImagePositionPatient with
      | none => rw [getIPP_none _ h0, bind_error_eq] at hout; cases hout
      | some p0 =>
          rw [getIPP_some _ _ h0, bind_ok_eq] at hout
          cases hps : posList (cross3 d0.ImageOrientationPatient.1
              d0.ImageOrientationPatient.2) p0 (d0 :: rest) with
          | error e => rw [hps, bind_error_eq] at hout; cases hout
          | ok ps =>
              rw [hps, bind_ok_eq] at hout
              cases hout
              have h1 : (List.insertionSort keyLE (ps.zip (d0 :: rest))).map Prod.snd |>.Perm
                  ((ps.zip (d0 :: rest)).map Prod.snd) :=
                (List.perm_insertionSort keyLE (ps.zip (d0 :: rest))).map Prod.snd
              rw [List.map_snd_zip ps (d0 :: rest)
                (le_of_eq (posList_length _ _ _ _ hps).symm)] at h1
              exact h1

/-- Central lemma: sorting a series whose slices share one orientation yields
a series that `_is_sorted` accepts (for any nonnegative tolerance). -/
theorem is_sorted_after_sort (l out : List DicomSlice) (iop0 : Vec3 × Vec3) (tol : ℚ)
    (htol : 0 ≤ tol) (hiop : ∀ d ∈ l, d.ImageOrientationPatient = iop0)
    (hout : sort_dicom_series l = .ok out) :
    is_sorted out tol = .ok true := by
  cases l with
  | nil =>
      rw [sort_dicom_series] at hout
      cases hout
      rfl
  | cons d0 rest =>
      rw [sort_dicom_series] at hout
      dsimp only at hout
      cases h0 : d0.ImagePositionPatient with
      | none => rw [getIPP_none _ h0, bind_error_eq] at hout; cases hout
      | some p0 =>
          rw [getIPP_some _ _ h0, bind_ok_eq] at hout
          cases hps : posList (cross3 d0.ImageOrientationPatient.1
              d0.ImageOrientationPatient.2) p0 (d0 :: rest) with
          | error e => rw [hps, bind_error_eq] at hout; cases hout
          | ok ps =>
              rw [hps, bind_ok_eq] at hout
              cases hout
              obtain ⟨hpseq, hsome⟩ := posList_ok_eq _ _ _ _ hps
              subst hpseq
              have hperm : (List.insertionSort keyLE
                  (((d0 :: rest).map (posKey (cross3 d0.ImageOrientationPatient.1
                    d0.ImageOrientationPatient.2) p0)).zip (d0 :: rest))).map Prod.snd |>.Perm
                  (d0 :: rest) :=
                sort_dicom_series_perm (d0 :: rest) _ (by
                  rw [sort_dicom_series]
                  dsimp only
                  rw [getIPP_some _ _ h0, bind_ok_eq, hps, bind_ok_eq])
              set n := cross3 d0.ImageOrientationPatient.1 d0.ImageOrientationPatient.2 with hn
              set SP := List.insertionSort keyLE
                (((d0 :: rest).map (posKey n p0)).zip (d0 :: rest)) with hSP
              have hinv : ∀ pr ∈ SP, pr.1 = posKey n p0 pr.2 := by
                intro pr hpr
                exact zip_map_fst_prop (posKey n p0) (d0 :: rest) pr
                  ((List.perm_insertionSort keyLE _).subset hpr)
              have hsortSP : List.Pairwise keyLE SP := List.sorted_insertionSort keyLE _
              have hpair_out : List.Pairwise
                  (fun d e => posKey n p0 d ≤ posKey n p0 e) (SP.map Prod.snd) := by
                rw [List.pairwise_map]
                refine List.Pairwise.imp_of_mem ?_ hsortSP
                intro p q hp hq hr
                rw [← hinv p hp, ← hinv q hq]
                exact hr
              have hsome_out : ∀ d ∈ SP.map Prod.snd, d.ImagePositionPatient.isSome :=
                fun d hd => hsome d (hperm.subset hd)
              have hiop_out : ∀ d ∈ SP.map Prod.snd, d.ImageOrientationPatient = iop0 :=
                fun d hd => hiop d (hperm.subset hd)
              cases hout' : SP.map Prod.snd with
              | nil => rfl
              | cons e0 outrest =>
                  cases outrest with
                  | nil => rfl
                  | cons e1 outrest2 =>
                      rw [hout'] at hpair_out hsome_out hiop_out
                      have hcross : cross3 e0.ImageOrientationPatient.1
                          e0.ImageOrientationPatient.2 = n := by
                        rw [hiop_out e0 (by simp), hn, hiop d0 (by simp)]
                      have hq0 : ∃ q0, e0.ImagePositionPatient = some q0 := by
                        have := hsome_out e0 (by simp)
                        cases he : e0.ImagePositionPatient with
                        | none => rw [he] at this; simp at this
                        | some q => exact ⟨q, rfl⟩
                      obtain ⟨q0, hq0⟩ := hq0
                      rw [is_sorted]
                      dsimp only
                      rw [getIPP_some e0 q0 hq0, bind_ok_eq, hcross]
                      rw [posList_of_all_some n q0 (e0 :: e1 :: outrest2) hsome_out,
                        bind_ok_eq]
                      have hincr : isIncreasing
                          ((e0 :: e1 :: outrest2).map (posKey n q0)) tol = true := by
                        rw [isIncreasing]
                        refine (all_zip_tail_iff_chain (fun a b => b - a ≥ -tol) _).2 ?_
                        rw [List.chain'_map]
                        have hch : List.Chain'
                            (fun d e => posKey n p0 d ≤ posKey n p0 e)
                            (e0 :: e1 :: outrest2) := List.Pairwise.chain' hpair_out
                        refine List.Chain'.imp ?_ hch
                        intro d e hle
                        have hshift : ∀ x : DicomSlice,
                            posKey n q0 x = posKey n p0 x - dot3 (sub3 q0 p0) n :=
                          fun x => dot3_sub3_shift _ p0 q0 n
                        rw [hshift d, hshift e]
                        have : (0 : ℚ) ≤ posKey n p0 e - posKey n p0 d := by linarith
                        show posKey n p0 e - dot3 (sub3 q0 p0) n -
                          (posKey n p0 d - dot3 (sub3 q0 p0) n) ≥ -tol
                        linarith
                      rw [hincr]

theorem make_false_eq (l : List DicomSlice) :
    DicomDataset.make l false = (do
      check_types l
      let b ← is_sorted l tolDefault
      if b then .ok ⟨l⟩
      else do
        let s ← sort_dicom_series l
        .ok ⟨s⟩) := rfl

theorem make_error_of_check (l : List DicomSlice) (e : PyErr)
    (h : check_types l = .error e) : DicomDataset.make l false = .error e := by
  rw [make_false_eq, h, bind_error_eq]

theorem check_types_ok_facts (l : List DicomSlice) (u : Unit) (h : check_types l = .ok u) :
    ∃ d0 tail, l = d0 :: tail ∧ d0.ImagePositionPatient ≠ none ∧
      (∀ d ∈ l, ¬ d.Modality = "SEG") ∧
      (∀ d ∈ l, d.SeriesInstanceUID = d0.SeriesInstanceUID) ∧
      (∀ d ∈ l, d.StudyInstanceUID = d0.StudyInstanceUID) ∧
      (∀ d ∈ l, (d.pixelRows, d.pixelCols) = (d0.pixelRows, d0.pixelCols)) := by
  cases l with
  | nil => rw [check_types] at h; cases h
  | cons d0 tail =>
      rw [check_types] at h
      split_ifs at h with h1 h2 h3 h4 h5
      refine ⟨d0, tail, rfl, h1, ?_, ?_, ?_, ?_⟩
      · intro d hd
        intro hseg
        apply h2
        rw [List.any_eq_true]
        exact ⟨d, hd, by simpa using hseg⟩
      · intro d hd
        have h3' := h3
        rw [List.all_eq_true] at h3'
        simpa using h3' d hd
      · intro d hd
        have h4' := h4
        rw [List.all_eq_true] at h4'
        simpa using h4' d hd
      · intro d hd
        have h5' := h5
        rw [List.all_eq_true] at h5'
        simpa using h5' d hd

theorem check_types_error_of_seg (l : List DicomSlice)
    (h : ∃ s ∈ l, s.Modality = "SEG") : ∃ e, check_types l = .error e := by
  cases hc : check_types l with
  | error e => exact ⟨e, rfl⟩
  | ok u =>
      obtain ⟨d0, tail, -, -, hseg, -, -, -⟩ := check_types_ok_facts l u hc
      obtain ⟨s, hs, hs'⟩ := h
      exact absurd hs' (hseg s hs)

theorem check_types_error_of_seriesUID (l : List DicomSlice) (s t : DicomSlice)
    (hs : s ∈ l) (ht : t ∈ l) (hne : s.SeriesInstanceUID ≠ t.SeriesInstanceUID) :
    ∃ e, check_types l = .error e := by
  cases hc : check_types l with
  | error e => exact ⟨e, rfl⟩
  | ok u =>
      obtain ⟨d0, tail, -, -, -, huid, -, -⟩ := check_types_ok_facts l u hc
      exact absurd (by rw [huid s hs, huid t ht]) hne

theorem check_types_error_of_studyUID (l : List DicomSlice) (s t : DicomSlice)
    (hs : s ∈ l) (ht : t ∈ l) (hne : s.StudyInstanceUID ≠ t.StudyInstanceUID) :
    ∃ e, check_types l = .error e := by
  cases hc : check_types l with
  | error e => exact ⟨e, rfl⟩
  | ok u =>
      obtain ⟨d0, tail, -, -, -, -, huid, -⟩ := check_types_ok_facts l u hc
      exact absurd (by rw [huid s hs, huid t ht]) hne

theorem check_types_error_of_shape (l : List DicomSlice) (s t : DicomSlice)
    (hs : s ∈ l) (ht : t ∈ l)
    (hne : (s.pixelRows, s.pixelCols) ≠ (t.pixelRows, t.pixelCols)) :
    ∃ e, check_types l = .error e := by
  cases hc : check_types l with
  | error e => exact ⟨e, rfl⟩
  | ok u =>
      obtain ⟨d0, tail, -, -, -, -, -, hshape⟩ := check_types_ok_facts l u hc
      exact absurd (by rw [hshape s hs, hshape t ht]) hne

theorem make_ok_cases (l : List DicomSlice) (d : DicomDataset)
    (h : DicomDataset.make l false = .ok d) :
    (d.dataset = l ∧ is_sorted l tolDefault = .ok true) ∨
    (∃ out, sort_dicom_series l = .ok out ∧ d.dataset = out) := by
  rw [make_false_eq] at h
  cases hc : check_types l with
  | error e => rw [hc, bind_error_eq] at h; cases h
  | ok u =>
      cases u
      rw [hc, bind_ok_eq] at h
      cases hb : is_sorted l tolDefault with
      | error e => rw [hb, bind_error_eq] at h; cases h
      | ok b =>
          rw [hb, bind_ok_eq] at h
          cases b with
          | true =>
              rw [if_pos rfl] at h
              cases h
              exact Or.inl ⟨rfl, rfl⟩
          | false =>
              rw [if_neg (by simp)] at h
              cases hs : sort_dicom_series l with
              | error e => rw [hs, bind_error_eq] at h; cases h
              | ok out =>
                  rw [hs, bind_ok_eq] at h
                  cases h
                  exact Or.inr ⟨out, rfl, rfl⟩

/-- Positions of the ascending two-slice fixture. -/
theorem asc_posList_eval :
    posList (cross3 (sliceAt 0).ImageOrientationPatient.1
      (sliceAt 0).ImageOrientationPatient.2) ⟨0, 0, 0⟩ [sliceAt 0, sliceAt 1] =
      .ok [0, 1] := by
  have hsome2 : ∀ d ∈ [sliceAt 0, sliceAt 1], d.ImagePositionPatient.isSome := by
    intro d hd
    rcases List.mem_cons.1 hd with h | h
    · subst h; rfl
    · rcases List.mem_cons.1 h with h' | h'
      · subst h'; rfl
      · simp at h'
  rw [posList_of_all_some _ _ _ hsome2]
  congr 1
  norm_num [posKey, sliceAt, dot3, sub3, cross3]

/-- The ascending fixture passes the sortedness check. -/
theorem asc_is_sorted_eval : is_sorted [sliceAt 0, sliceAt 1] tolDefault = .ok true := by
  rw [is_sorted]
  dsimp only
  rw [getIPP_some (sliceAt 0) ⟨0, 0, 0⟩ rfl, bind_ok_eq, asc_posList_eval, bind_ok_eq]
  have hinc : isIncreasing [0, 1] tolDefault = true := by
    norm_num [isIncreasing, tolDefault]
  rw [hinc]

/-- Constructing a dataset from the ascending fixture keeps it unchanged. -/
theorem asc_make_eval :
    DicomDataset.make [sliceAt 0, sliceAt 1] false = .ok ⟨[sliceAt 0, sliceAt 1]⟩ := by
  rw [make_false_eq]
  rw [show check_types [sliceAt 0, sliceAt 1] = .ok () from rfl, bind_ok_eq]
  rw [asc_is_sorted_eval, bind_ok_eq]
  rw [if_pos rfl]

/-- C8: sorting an already-ordered series (non-decreasing projections) is a
no-op; after one `sort()` the series satisfies `is_sorted` (for any initial
order of slices sharing one orientation, the spec's single-slice-normal
assumption); hence a `DicomDataset` constructed without `force` always
satisfies `is_sorted`. -/
theorem C8_sort_idempotence :
    (∀ (d0 : DicomSlice) (rest : List DicomSlice) (p0 : Vec3) (ps : List ℚ),
      d0.ImagePositionPatient = some p0 →
      posList (cross3 d0.ImageOrientationPatient.1 d0.ImageOrientationPatient.2) p0
        (d0 :: rest) = .ok ps →
      List.Chain' (· ≤ ·) ps →
      sort_dicom_series (d0 :: rest) = .ok (d0 :: rest)) ∧
    (∀ (l out : List DicomSlice) (iop0 : Vec3 × Vec3) (tol : ℚ), 0 ≤ tol →
      (∀ d ∈ l, d.ImageOrientationPatient = iop0) →
      sort_dicom_series l = .ok out →
      is_sorted out tol = .ok true) ∧
    (∀ (l : List DicomSlice) (d : DicomDataset) (iop0 : Vec3 × Vec3),
      (∀ s ∈ l, s.ImageOrientationPatient = iop0) →
      DicomDataset.make l false = .ok d →
      is_sorted d.dataset tolDefault = .ok true) := by
  refine ⟨fun d0 rest p0 ps h0 hps hch => sort_dicom_series_noop d0 rest p0 ps h0 hps hch,
    fun l out iop0 tol htol hiop hout => is_sorted_after_sort l out iop0 tol htol hiop hout,
    ?_⟩
  intro l d iop0 hiop hmk
  rcases make_ok_cases l d hmk with ⟨hds, hsorted⟩ | ⟨out, hs, hds⟩
  · rw [hds]
    exact hsorted
  · rw [hds]
    exact is_sorted_after_sort l out iop0 tolDefault (by norm_num [tolDefault]) hiop hs

/-- C8 witness: the ascending fixture is left unchanged by sorting and passes
`is_sorted` after that (single) sort. -/
theorem C8_sort_idempotence_witness :
    sort_dicom_series [sliceAt 0, sliceAt 1] = .ok [sliceAt 0, sliceAt 1] ∧
    is_sorted [sliceAt 0, sliceAt 1] tolDefault = .ok true := by
  have hchain : List.Chain' (· ≤ ·) ([0, 1] : List ℚ) := by
    refine List.chain'_cons.2 ⟨by norm_num, ?_⟩
    simp
  have hsort := C8_sort_idempotence.1 (sliceAt 0) [sliceAt 1] ⟨0, 0, 0⟩ [0, 1] rfl
    asc_posList_eval hchain
  have hiop : ∀ d ∈ [sliceAt 0, sliceAt 1],
      d.ImageOrientationPatient = (⟨1, 0, 0⟩, ⟨0, 1, 0⟩) := by
    intro d hd
    rcases List.mem_cons.1 hd with h | h
    · subst h; rfl
    · rcases List.mem_cons.1 h with h' | h'
      · subst h'; rfl
      · simp at h'
  exact ⟨hsort, C8_sort_idempotence.2.1 [sliceAt 0, sliceAt 1] [sliceAt 0, sliceAt 1]
    (⟨1, 0, 0⟩, ⟨0, 1, 0⟩) tolDefault (by norm_num [tolDefault]) hiop hsort⟩

/-- C9: constructing a `DicomDataset` without `force` from an empty list, a
first slice without `ImagePositionPatient`, a segmentation-typed element, or
mismatched series UID / study UID / pixel shape always raises; on success the
dataset is a permutation of the input satisfying `is_sorted` (given the
spec's shared-orientation series assumption). -/
theorem C9_construction_validation :
    (DicomDataset.make [] false = .error .emptyList) ∧
    (∀ (d0 : DicomSlice) (rest : List DicomSlice), d0.ImagePositionPatient = none →
      ∃ e, DicomDataset.make (d0 :: rest) false = .error e) ∧
    (∀ l : List DicomSlice, (∃ s ∈ l, s.Modality = "SEG") →
      ∃ e, DicomDataset.make l false = .error e) ∧
    (∀ (l : List DicomSlice) (s t : DicomSlice), s ∈ l → t ∈ l →
      s.SeriesInstanceUID ≠ t.SeriesInstanceUID →
      ∃ e, DicomDataset.make l false = .error e) ∧
    (∀ (l : List DicomSlice) (s t : DicomSlice), s ∈ l → t ∈ l →
      s.StudyInstanceUID ≠ t.StudyInstanceUID →
      ∃ e, DicomDataset.make l false = .error e) ∧
    (∀ (l : List DicomSlice) (s t : DicomSlice), s ∈ l → t ∈ l →
      (s.pixelRows, s.pixelCols) ≠ (t.pixelRows, t.pixelCols) →
      ∃ e, DicomDataset.make l false = .error e) ∧
    (∀ (l : List DicomSlice) (d : DicomDataset) (iop0 : Vec3 × Vec3),
      (∀ s ∈ l, s.ImageOrientationPatient = iop0) →
      DicomDataset.make l false = .ok d →
      d.dataset.Perm l ∧ is_sorted d.dataset tolDefault = .ok true) := by
  refine ⟨make_error_of_check [] .emptyList rfl, ?_, ?_, ?_, ?_, ?_, ?_⟩
  · intro d0 rest h0
    refine ⟨.missingIPP, make_error_of_check _ _ ?_⟩
    rw [check_types]
    rw [if_pos h0]
  · intro l hseg
    obtain ⟨e, he⟩ := check_types_error_of_seg l hseg
    exact ⟨e, make_error_of_check l e he⟩
  · intro l s t hs ht hne
    obtain ⟨e, he⟩ := check_types_error_of_seriesUID l s t hs ht hne
    exact ⟨e, make_error_of_check l e he⟩
  · intro l s t hs ht hne
    obtain ⟨e, he⟩ := check_types_error_of_studyUID l s t hs ht hne
    exact ⟨e, make_error_of_check l e he⟩
  · intro l s t hs ht hne
    obtain ⟨e, he⟩ := check_types_error_of_shape l s t hs ht hne
    exact ⟨e, make_error_of_check l e he⟩
  · intro l d iop0 hiop hmk
    rcases make_ok_cases l d hmk with ⟨hds, hsorted⟩ | ⟨out, hsort, hds⟩
    · rw [hds]
      exact ⟨List.Perm.refl l, hsorted⟩
    · rw [hds]
      exact ⟨sort_dicom_series_perm l out hsort,
        is_sorted_after_sort l out iop0 tolDefault (by norm_num [tolDefault]) hiop hsort⟩

/-- C9 witness: a SEG-typed element makes construction fail; the valid
ascending fixture constructs successfully into a sorted permutation. -/
theorem C9_construction_validation_witness :
    (∃ e, DicomDataset.make [sliceSeg] false = .error e) ∧
    ((⟨[sliceAt 0, sliceAt 1]⟩ : DicomDataset).dataset.Perm [sliceAt 0, sliceAt 1] ∧
      is_sorted (⟨[sliceAt 0, sliceAt 1]⟩ : DicomDataset).dataset tolDefault = .ok true) := by
  have hiop : ∀ d ∈ [sliceAt 0, sliceAt 1],
      d.ImageOrientationPatient = (⟨1, 0, 0⟩, ⟨0, 1, 0⟩) := by
    intro d hd
    rcases List.mem_cons.1 hd with h | h
    · subst h; rfl
    · rcases List.mem_cons.1 h with h' | h'
      · subst h'; rfl
      · simp at h'
  constructor
  · exact C9_construction_validation.2.2.1 [sliceSeg] ⟨sliceSeg, by simp, rfl⟩
  · exact C9_construction_validation.2.2.2.2.2.2 [sliceAt 0, sliceAt 1] ⟨[sliceAt 0, sliceAt 1]⟩
      (⟨1, 0, 0⟩, ⟨0, 1, 0⟩) hiop asc_make_eval

/-! ## Claim C5: coordinate mapper output order and nearest-slice selection -/

theorem dot3_comm (a b : Vec3) : dot3 a b = dot3 b a := by
  simp only [dot3]
  ring

theorem dot3_add3_right (n a b : Vec3) : dot3 n (add3 a b) = dot3 n a + dot3 n b := by
  simp only [dot3, add3]
  ring

theorem dot3_smul3_right (n : Vec3) (c : ℚ) (a : Vec3) :
    dot3 n (smul3 c a) = c * dot3 n a := by
  simp only [dot3, smul3]
  ring

/-- `np.linalg.lstsq` recovers the exact coefficients of a point in the span
of two independent columns. -/
theorem lstsq2_exact (u v : Vec3) (a b : ℚ)
    (hdet : dot3 u u * dot3 v v - dot3 u v * dot3 u v ≠ 0) :
    lstsq2 u v (add3 (smul3 a u) (smul3 b v)) = (a, b) := by
  rw [lstsq2]
  rw [if_neg hdet]
  have hp : dot3 u (add3 (smul3 a u) (smul3 b v)) = a * dot3 u u + b * dot3 u v := by
    rw [dot3_add3_right, dot3_smul3_right, dot3_smul3_right]
  have hq : dot3 v (add3 (smul3 a u) (smul3 b v)) = a * dot3 u v + b * dot3 v v := by
    rw [dot3_add3_right, dot3_smul3_right, dot3_smul3_right, dot3_comm v u]
  rw [hp, hq, Prod.mk.injEq]
  constructor
  · field_simp
    ring
  · field_simp
    ring

theorem npArgmin_min (A : List ℚ) (hA : A ≠ []) :
    npArgmin A < A.length ∧ ∀ j, j < A.length → A.getD (npArgmin A) 0 ≤ A.getD j 0 := by
  cases hA' : argminPair A with
  | none =>
      cases A with
      | nil => exact absurd rfl hA
      | cons a t => exact absurd hA' (argminPair_ne_none a t)
  | some iv =>
      obtain ⟨i, v⟩ := iv
      obtain ⟨hlen, hget, hmin⟩ := argminPair_spec A i v hA'
      have hnp : npArgmin A = i := by simp [npArgmin, hA']
      rw [hnp]
      exact ⟨hlen, fun j hj => hget ▸ hmin j hj⟩

theorem getD_mem {α : Type} : ∀ (l : List α) (n : ℕ) (d : α), n < l.length → l.getD n d ∈ l := by
  intro l
  induction l with
  | nil => intro n d h; simp at h
  | cons a t ih =>
      intro n d h
      cases n with
      | zero => simp
      | succ m =>
          have := ih m d (by simpa using h)
          simp only [List.getD_cons_succ]
          exact List.mem_cons_of_mem a this

theorem dot3_sub3_add3 (x w r n : Vec3) :
    dot3 (sub3 (add3 x w) r) n = dot3 (sub3 x r) n + dot3 w n := by
  simp only [dot3, sub3, add3]
  ring

theorem local_sorted_pairs_length (d0 : DicomSlice) (rest : List DicomSlice) (ps : List ℚ)
    (hlen : ps.length = rest.length + 1) :
    (local_sorted_pairs d0 rest ps).length = rest.length + 1 := by
  rw [local_sorted_pairs, (List.perm_insertionSort keyLE _).length_eq, List.length_zip]
  simp [hlen]

/-- C5: `patient_to_image_coordinate` returns the triple in the order
(column index, row index, slice index), where — following the code's own
axis naming (its bounds diagnostics compare `i` against the row count and `j`
against the column count) — the row index is the least-squares coefficient on
`row_cosines * PixelSpacing[1]` and the column index the coefficient on
`col_cosines * PixelSpacing[0]`: a query at in-plane offset
`a * u + b * v` from the `k`-th sorted slice's position returns
`(b, a, k)`.  The third component is always the index (in the locally sorted
order) of a slice whose projection minimizes the absolute difference to the
query's projection. -/
theorem C5_coordinate_output_order :
    (∀ (series : DicomDataset) (d0 : DicomSlice) (rest : List DicomSlice)
        (p0 pk : Vec3) (ps : List ℚ) (k : ℕ) (qk : ℚ) (sel : DicomSlice) (a b : ℤ),
      series.dataset = d0 :: rest →
      d0.ImagePositionPatient = some p0 →
      posList (cross3 d0.ImageOrientationPatient.1 d0.ImageOrientationPatient.2) p0
        (d0 :: rest) = .ok ps →
      k < (local_sorted_pairs d0 rest ps).length →
      (local_sorted_pairs d0 rest ps).getD k (0, d0) = (qk, sel) →
      (∀ m, m < (local_sorted_pairs d0 rest ps).length → m ≠ k →
        ((local_sorted_pairs d0 rest ps).getD m (0, d0)).1 ≠ qk) →
      sel.ImagePositionPatient = some pk →
      dot3 (smul3 d0.PixelSpacing.2 d0.ImageOrientationPatient.1)
          (smul3 d0.PixelSpacing.2 d0.ImageOrientationPatient.1) *
        dot3 (smul3 d0.PixelSpacing.1 d0.ImageOrientationPatient.2)
          (smul3 d0.PixelSpacing.1 d0.ImageOrientationPatient.2) -
        dot3 (smul3 d0.PixelSpacing.2 d0.ImageOrientationPatient.1)
          (smul3 d0.PixelSpacing.1 d0.ImageOrientationPatient.2) *
        dot3 (smul3 d0.PixelSpacing.2 d0.ImageOrientationPatient.1)
          (smul3 d0.PixelSpacing.1 d0.ImageOrientationPatient.2) ≠ 0 →
      patient_to_image_coordinate
        (add3 pk (add3 (smul3 (a : ℚ) (smul3 d0.PixelSpacing.2 d0.ImageOrientationPatient.1))
          (smul3 (b : ℚ) (smul3 d0.PixelSpacing.1 d0.ImageOrientationPatient.2)))) series =
        .ok (b, a, k)) ∧
    (∀ (series : DicomDataset) (d0 : DicomSlice) (rest : List DicomSlice)
        (p0 : Vec3) (ps : List ℚ) (p' : Vec3) (t : ℤ × ℤ × ℕ),
      series.dataset = d0 :: rest →
      d0.ImagePositionPatient = some p0 →
      posList (cross3 d0.ImageOrientationPatient.1 d0.ImageOrientationPatient.2) p0
        (d0 :: rest) = .ok ps →
      patient_to_image_coordinate p' series = .ok t →
      t.2.2 < (local_sorted_pairs d0 rest ps).length ∧
      ∀ m, m < (local_sorted_pairs d0 rest ps).length →
        |((local_sorted_pairs d0 rest ps).getD t.2.2 (0, d0)).1 -
          dot3 (sub3 p' p0)
            (cross3 d0.ImageOrientationPatient.1 d0.ImageOrientationPatient.2)| ≤
        |((local_sorted_pairs d0 rest ps).getD m (0, d0)).1 -
          dot3 (sub3 p' p0)
            (cross3 d0.ImageOrientationPatient.1 d0.ImageOrientationPatient.2)|) := by
  constructor
  · intro series d0 rest p0 pk ps k qk sel a b hds h0 hps hklen hk huniq hselipp hdet
    set n := cross3 d0.ImageOrientationPatient.1 d0.ImageOrientationPatient.2 with hn
    set u := smul3 d0.PixelSpacing.2 d0.ImageOrientationPatient.1 with hu
    set v := smul3 d0.PixelSpacing.1 d0.ImageOrientationPatient.2 with hv
    set pquery := add3 pk (add3 (smul3 (a : ℚ) u) (smul3 (b : ℚ) v)) with hpq
    obtain ⟨hpseq, -⟩ := posList_ok_eq _ _ _ _ hps
    have hinv : ∀ pr ∈ local_sorted_pairs d0 rest ps, pr.1 = posKey n p0 pr.2 := by
      intro pr hpr
      rw [local_sorted_pairs] at hpr
      refine zip_map_fst_prop (posKey n p0) (d0 :: rest) pr ?_
      have := (List.perm_insertionSort keyLE (ps.zip (d0 :: rest))).subset hpr
      rw [hpseq] at this
      exact this
    have hkmem : (qk, sel) ∈ local_sorted_pairs d0 rest ps := by
      rw [← hk]
      exact getD_mem _ k (0, d0) hklen
    have hqk : qk = posKey n p0 sel := by
      have := hinv (qk, sel) hkmem
      simpa using this
    have hd : dot3 (sub3 pquery p0) n = qk := by
      rw [hqk, posKey, hselipp, hpq, hu, hv, hn]
      simp only [dot3_sub3_add3, dot3_add3_left, dot3_smul3_left, dot3_cross3_left,
        dot3_cross3_right, mul_zero, add_zero, Option.getD_some]
    have hss : slice_selection pquery d0 rest = .ok (k, sel) := by
      rw [slice_selection]
      dsimp only
      rw [getIPP_some d0 p0 h0, bind_ok_eq, hps, bind_ok_eq]
      have hargmin : npArgmin ((local_sorted_pairs d0 rest ps).map
          fun q => |q.1 - dot3 (sub3 pquery p0) n|) = k := by
        apply npArgmin_eq_of_unique_zero
        · rw [List.length_map]; exact hklen
        · rw [getD_map_of_lt _ _ _ (0, d0) 0 hklen, hk, hd]
          simp
        · intro j hj
          rw [getD_map_of_lt _ _ _ (0, d0) 0 (by simpa using hj)]
          exact abs_nonneg _
        · intro j hj hjk
          rw [getD_map_of_lt _ _ _ (0, d0) 0 (by simpa using hj), hd]
          exact abs_pos.2 (sub_ne_zero.2 (huniq j (by simpa using hj) hjk))
      rw [hargmin]
      rw [getD_map_of_lt Prod.snd _ _ (0, d0) d0 hklen, hk]
    rw [patient_to_image_coordinate, hds]
    dsimp only
    rw [hss, bind_ok_eq]
    dsimp only
    rw [getIPP_some sel pk hselipp, bind_ok_eq]
    have hdelta : sub3 pquery pk = add3 (smul3 (a : ℚ) u) (smul3 (b : ℚ) v) :=
      sub3_add3_cancel pk _
    rw [hdelta, lstsq2_exact u v (a : ℚ) (b : ℚ) hdet]
    rw [show ((a : ℚ), (b : ℚ)).2 = (b : ℚ) from rfl, show ((a : ℚ), (b : ℚ)).1 = (a : ℚ) from rfl]
    rw [pyInt_intCast, pyInt_intCast]
  · intro series d0 rest p0 ps p' t hds h0 hps hpic
    set n := cross3 d0.ImageOrientationPatient.1 d0.ImageOrientationPatient.2 with hn
    have hSPlen : (local_sorted_pairs d0 rest ps).length = rest.length + 1 :=
      local_sorted_pairs_length d0 rest ps (by simpa using posList_length _ _ _ _ hps)
    have hss : slice_selection p' d0 rest = .ok
        (npArgmin ((local_sorted_pairs d0 rest ps).map fun q => |q.1 - dot3 (sub3 p' p0) n|),
          ((local_sorted_pairs d0 rest ps).map Prod.snd).getD
            (npArgmin ((local_sorted_pairs d0 rest ps).map
              fun q => |q.1 - dot3 (sub3 p' p0) n|)) d0) := by
      rw [slice_selection]
      dsimp only
      rw [getIPP_some d0 p0 h0, bind_ok_eq, hps, bind_ok_eq]
    rw [patient_to_image_coordinate, hds] at hpic
    dsimp only at hpic
    rw [hss, bind_ok_eq] at hpic
    cases hipp : getIPP (((local_sorted_pairs d0 rest ps).map Prod.snd).getD
        (npArgmin ((local_sorted_pairs d0 rest ps).map
          fun q => |q.1 - dot3 (sub3 p' p0) n|)) d0) with
    | error e =>
        rw [hipp] at hpic
        rw [bind_error_eq] at hpic
        cases hpic
    | ok ippk =>
        rw [hipp] at hpic
        rw [bind_ok_eq] at hpic
        have ht : t.2.2 = npArgmin ((local_sorted_pairs d0 rest ps).map
            fun q => |q.1 - dot3 (sub3 p' p0) n|) := by
          cases hpic
          rfl
        have hAne : (local_sorted_pairs d0 rest ps).map
            (fun q => |q.1 - dot3 (sub3 p' p0) n|) ≠ [] := by
          intro hnil
          have := congrArg List.length hnil
          rw [List.length_map, hSPlen] at this
          simp at this
        obtain ⟨hlt, hmin⟩ := npArgmin_min _ hAne
        rw [List.length_map] at hlt
        constructor
        · rw [ht]; exact hlt
        · intro m hm
          have h1 := hmin m (by rw [List.length_map]; exact hm)
          rw [getD_map_of_lt _ _ _ (0, d0) 0 hlt,
            getD_map_of_lt _ _ _ (0, d0) 0 hm] at h1
          rw [ht]
          exact h1

/-- C5 witness: on the ascending fixture, a query at in-plane offset
`1 * u + 2 * v` from slice 1's position returns the triple `(2, 1, 1)` —
column index first, then row index, then slice index. -/
theorem C5_coordinate_output_order_witness :
    patient_to_image_coordinate
      (add3 ⟨0, 0, 1⟩ (add3
        (smul3 ((1 : ℤ) : ℚ) (smul3 (sliceAt 0).PixelSpacing.2
          (sliceAt 0).ImageOrientationPatient.1))
        (smul3 ((2 : ℤ) : ℚ) (smul3 (sliceAt 0).PixelSpacing.1
          (sliceAt 0).ImageOrientationPatient.2)))) seriesAsc =
      .ok (2, 1, 1) := by
  have hSP : local_sorted_pairs (sliceAt 0) [sliceAt 1] [0, 1] =
      [(0, sliceAt 0), (1, sliceAt 1)] := by
    norm_num [local_sorted_pairs, List.insertionSort, List.orderedInsert, keyLE]
  have hklen : 1 < (local_sorted_pairs (sliceAt 0) [sliceAt 1] [0, 1]).length := by
    rw [hSP]
    norm_num
  have hk : (local_sorted_pairs (sliceAt 0) [sliceAt 1] [0, 1]).getD 1 (0, sliceAt 0) =
      (1, sliceAt 1) := by
    rw [hSP]
    rfl
  have huniq : ∀ m, m < (local_sorted_pairs (sliceAt 0) [sliceAt 1] [0, 1]).length →
      m ≠ 1 → ((local_sorted_pairs (sliceAt 0) [sliceAt 1] [0, 1]).getD m (0, sliceAt 0)).1 ≠
        (1 : ℚ) := by
    intro m hm hne
    rw [hSP] at hm ⊢
    simp only [List.length_cons, List.length_nil] at hm
    interval_cases m
    · norm_num
    · exact absurd rfl hne
  have hdet : dot3 (smul3 (sliceAt 0).PixelSpacing.2 (sliceAt 0).ImageOrientationPatient.1)
        (smul3 (sliceAt 0).PixelSpacing.2 (sliceAt 0).ImageOrientationPatient.1) *
      dot3 (smul3 (sliceAt 0).PixelSpacing.1 (sliceAt 0).ImageOrientationPatient.2)
        (smul3 (sliceAt 0).PixelSpacing.1 (sliceAt 0).ImageOrientationPatient.2) -
      dot3 (smul3 (sliceAt 0).PixelSpacing.2 (sliceAt 0).ImageOrientationPatient.1)
        (smul3 (sliceAt 0).PixelSpacing.1 (sliceAt 0).ImageOrientationPatient.2) *
      dot3 (smul3 (sliceAt 0).PixelSpacing.2 (sliceAt 0).ImageOrientationPatient.1)
        (smul3 (sliceAt 0).PixelSpacing.1 (sliceAt 0).ImageOrientationPatient.2) ≠ 0 := by
    norm_num [dot3, smul3, sliceAt]
  exact C5_coordinate_output_order.1 seriesAsc (sliceAt 0) [sliceAt 1] ⟨0, 0, 0⟩ ⟨0, 0, 1⟩
    [0, 1] 1 1 (sliceAt 1) 1 2 rfl rfl asc_posList_eval hklen hk huniq rfl hdet
